import Mathlib

/-!
Verification of the relational projection and navigation engine of a GTFS
schedule browser, against its natural-language specification.

The Rust source keeps each entity collection in a `HashMap<String, _>`.
We embed those maps as association lists over `String` (`StrMap`); `insert`
replaces in place like `HashMap::insert`, and `adjust` models the
`entry(k).or_insert(d)` + mutation pattern.  Iteration order of a Rust
`HashMap` is unspecified; the list order of a `StrMap` is one concrete
representative of it, and every property proved below is insensitive to
that order.

The recursive descendant traversal `put_descendants` of
`src/commands/stops.rs` has no termination guarantee in the source (it is
ordinary unbounded recursion), so it is embedded with an explicit fuel
parameter: a result of `none` means the Rust recursion would still be
running (or overflowing the stack) after that many nested calls, and a
computation that returns `none` for every fuel is divergent.
-/

/-- Association-list embedding of Rust's `HashMap<String, α>`. -/
abbrev StrMap (α : Type) := List (String × α)

/-- Lookup, as `HashMap::get`. -/
def StrMap.get? {α : Type} : StrMap α → String → Option α
  | [], _ => none
  | (k, v) :: rest, key => if k = key then some v else StrMap.get? rest key

/-- Insert-or-replace, as `HashMap::insert`. -/
def StrMap.insert {α : Type} : StrMap α → String → α → StrMap α
  | [], key, val => [(key, val)]
  | (k, v) :: rest, key, val =>
      if k = key then (k, val) :: rest else (k, v) :: StrMap.insert rest key val

/-- The `entry(key).or_insert(dflt)` + in-place mutation `f` pattern. -/
def StrMap.adjust {α : Type} : StrMap α → String → α → (α → α) → StrMap α
  | [], key, dflt, f => [(key, f dflt)]
  | (k, v) :: rest, key, dflt, f =>
      if k = key then (k, f v) :: rest else (k, v) :: StrMap.adjust rest key dflt f

/-- The `entry(key).or_insert(Vec::new()).push(x)` pattern. -/
def StrMap.pushAt {α : Type} (m : StrMap (List α)) (key : String) (x : α) :
    StrMap (List α) :=
  StrMap.adjust m key [] (fun l => l ++ [x])

/-- Key list of a map. -/
def StrMap.keys {α : Type} (m : StrMap α) : List String := m.map Prod.fst

/-- Value list of a map, as `HashMap::values`. -/
def StrMap.vals {α : Type} (m : StrMap α) : List α := m.map Prod.snd

/-- Rebuild a map from a pair list, as `collect::<HashMap<_, _>>()`. -/
def StrMap.ofList {α : Type} (l : List (String × α)) : StrMap α :=
  l.foldl (fun acc p => StrMap.insert acc p.1 p.2) []

/-- The documented indexing discipline of the collections: distinct keys. -/
def StrMap.NodupKeys {α : Type} (m : StrMap α) : Prop := (StrMap.keys m).Nodup

instance {α : Type} (m : StrMap α) : Decidable (StrMap.NodupKeys m) := by
  unfold StrMap.NodupKeys; infer_instance

/-! ### Entity model (`src/gtfs/stops.rs`, `routes.rs`, `trips.rs`,
`stop_times.rs`)

Latitude/longitude fields are `f64` in the source and play no role in any
projection or dispatch decision; they are omitted from the embedding, as
are the optional descriptive attributes (codes, URLs, timezones, colors,
policies, clock times) that are carried along unchanged.  The fields that
drive the engine — identities, `parent_station`, names, and foreign keys —
are kept with their source shapes. -/

/-- `StopDetails`: `location_type` 0, optional parent. -/
structure StopDetails where
  stop_name : String
  parent_station : Option String
deriving DecidableEq

/-- `StationDetails`: `location_type` 1, no parent (stations are roots). -/
structure StationDetails where
  stop_name : String
deriving DecidableEq

/-- `EntranceExitDetails`: `location_type` 2, required parent. -/
structure EntranceExitDetails where
  stop_name : String
  parent_station : String
deriving DecidableEq

/-- `GenericNodeDetails`: `location_type` 3, required parent. -/
structure GenericNodeDetails where
  stop_name : Option String
  parent_station : String
deriving DecidableEq

/-- `BoardingAreaDetails`: `location_type` 4, required parent. -/
structure BoardingAreaDetails where
  stop_name : Option String
  parent_station : String
deriving DecidableEq

/-- The five-way tagged union `LocationTypeDetails`. -/
inductive LocationTypeDetails where
  | stop (details : StopDetails)
  | station (details : StationDetails)
  | entranceExit (details : EntranceExitDetails)
  | genericNode (details : GenericNodeDetails)
  | boardingArea (details : BoardingAreaDetails)
deriving DecidableEq

/-- The `Stop` record. -/
structure Stop where
  stop_id : String
  location_type_details : LocationTypeDetails
deriving DecidableEq

/-- `Stop::get_stop_name`, the unified name accessor. -/
def Stop.get_stop_name (s : Stop) : Option String :=
  match s.location_type_details with
  | .stop d => some d.stop_name
  | .station d => some d.stop_name
  | .entranceExit d => some d.stop_name
  | .genericNode d => d.stop_name
  | .boardingArea d => d.stop_name

/-- `Stop::parent_station`, the unified parent accessor. -/
def Stop.parent_station (s : Stop) : Option String :=
  match s.location_type_details with
  | .stop d => d.parent_station
  | .station _ => none
  | .entranceExit d => some d.parent_station
  | .genericNode d => some d.parent_station
  | .boardingArea d => some d.parent_station

/-- The `RouteName` tagged union: short or long name or both. -/
inductive RouteName where
  | short (name : String)
  | long (name : String)
  | longAndShort (longName shortName : String)
deriving DecidableEq

/-- `RouteName::long`. -/
def RouteName.longOf : RouteName → Option String
  | .long name => some name
  | .longAndShort name _ => some name
  | .short _ => none

/-- `RouteName::short`. -/
def RouteName.shortOf : RouteName → Option String
  | .short name => some name
  | .longAndShort _ name => some name
  | .long _ => none

/-- The `Route` record (claims-relevant fields). -/
structure Route where
  route_id : String
  name : RouteName
deriving DecidableEq

/-- `Route::route_long_name`. -/
def Route.route_long_name (r : Route) : Option String := r.name.longOf

/-- `Route::route_short_name`. -/
def Route.route_short_name (r : Route) : Option String := r.name.shortOf

/-- `Route::long_or_short_name`. -/
def Route.long_or_short_name (r : Route) : String :=
  match r.name with
  | .long name => name
  | .short name => name
  | .longAndShort longName _ => longName

/-- `Route::name` (delegates to `long_or_short_name`). -/
def Route.displayName (r : Route) : String := r.long_or_short_name

/-- The `Trip` record (claims-relevant fields). -/
structure Trip where
  trip_id : String
  route_id : String
  service_id : String
deriving DecidableEq

/-- The `StopTime` record; `stop_id` is optional in the source, and
`stop_sequence` is the required ordering field that distinguishes entries
of the same trip. -/
structure StopTime where
  trip_id : String
  stop_id : Option String
  stop_sequence : Nat
deriving DecidableEq

/-- `Stops`: stops indexed by `stop_id`. -/
structure Stops where
  stops : StrMap Stop
deriving DecidableEq

/-- `Routes`: routes indexed by `route_id`. -/
structure Routes where
  routes : StrMap Route
deriving DecidableEq

/-- `Trips`: trips indexed by `trip_id`. -/
structure Trips where
  trips : StrMap Trip
deriving DecidableEq

/-- `StopTimes`: per the source doc comment, "a collection of stop times,
indexed by trip_id". -/
structure StopTimes where
  stop_times : StrMap (List StopTime)
deriving DecidableEq

/-- `StopTimes::iter`: all entries, flattening the per-key vectors. -/
def StopTimes.iter (st : StopTimes) : List StopTime :=
  (StrMap.vals st.stop_times).flatten

/-- The `GtfsSchedule` aggregate. -/
structure GtfsSchedule where
  stops : Stops
  routes : Routes
  trips : Trips
  stop_times : StopTimes
deriving DecidableEq

/-- A navigation-tree node (`src/commands/gtfs.rs`); `parent` makes the
type recursive. -/
inductive GtfsNode where
  | mk (gtfs : GtfsSchedule) (parent : Option GtfsNode)
      (node_id : String) (node_name : Option String)

/-- Projection of the `gtfs` field of a node. -/
def GtfsNode.gtfs : GtfsNode → GtfsSchedule
  | .mk g _ _ _ => g

/-- Projection of the `parent` field of a node. -/
def GtfsNode.parent : GtfsNode → Option GtfsNode
  | .mk _ p _ _ => p

/-- Projection of the `node_id` field of a node. -/
def GtfsNode.node_id : GtfsNode → String
  | .mk _ _ i _ => i

/-- Projection of the `node_name` field of a node. -/
def GtfsNode.node_name : GtfsNode → Option String
  | .mk _ _ _ n => n

/-! ### Projection engine (`src/commands/routes.rs`, `src/commands/stops.rs`) -/

/-- `StopCommandError` of `src/commands/stops.rs`. -/
inductive StopCommandError where
  | noSuchStop (stop_id : String)
  | errorGettingDescendants (stop_id : String) (cause : StopCommandError)
deriving DecidableEq

/-- The `Display` rendering of `StopCommandError`. -/
def StopCommandError.display : StopCommandError → String
  | .noSuchStop stop_id => "No such stop: " ++ stop_id
  | .errorGettingDescendants stop_id cause =>
      "Error getting descendants for stop " ++ stop_id ++ ": " ++ cause.display

/-- Grouping fold: `fold(HashMap::new(), |acc, (k, v)| { acc.entry(k).or_insert(Vec::new()).push(v); acc })`. -/
def groupPairs {α : Type} : List (String × α) → StrMap (List α) → StrMap (List α)
  | [], acc => acc
  | p :: rest, acc => groupPairs rest (StrMap.pushAt acc p.1 p.2)

/-- One step of the `stops_and_children` index fold of `clone_descendants`:
record the stop under its own key, then push its key onto its parent's
child list. -/
def stopsAndChildrenStep (acc : StrMap (Option Stop × List String))
    (entry : String × Stop) : StrMap (Option Stop × List String) :=
  let acc1 := StrMap.adjust acc entry.1 (none, []) (fun p => (some entry.2, p.2))
  match entry.2.parent_station with
  | some parent_id =>
      StrMap.adjust acc1 parent_id (none, []) (fun p => (p.1, p.2 ++ [entry.1]))
  | none => acc1

/-- The fold of `clone_descendants` building the parent→children index,
with the accumulator exposed for reasoning. -/
def stopsAndChildrenGo : List (String × Stop) → StrMap (Option Stop × List String) →
    StrMap (Option Stop × List String)
  | [], acc => acc
  | entry :: rest, acc => stopsAndChildrenGo rest (stopsAndChildrenStep acc entry)

/-- The full `stops_and_children` index over all stops of the schedule. -/
def stopsAndChildren (stops : StrMap Stop) : StrMap (Option Stop × List String) :=
  stopsAndChildrenGo stops []

/-- The child loop of `put_descendants`, abstracted over the recursive
call (`visit`) so that the fuel recursion stays structural. -/
def putChildrenWith (idx : StrMap (Option Stop × List String))
    (visit : Stop → StrMap Stop → Option (Except StopCommandError (StrMap Stop))) :
    List String → StrMap Stop → Option (Except StopCommandError (StrMap Stop))
  | [], descendants => some (Except.ok descendants)
  | childId :: rest, descendants =>
      match (StrMap.get? idx childId).bind Prod.fst with
      | none => some (Except.error (StopCommandError.noSuchStop childId))
      | some child =>
          match visit child descendants with
          | none => none
          | some (Except.error e) =>
              some (Except.error (StopCommandError.errorGettingDescendants childId e))
          | some (Except.ok descendants1) => putChildrenWith idx visit rest descendants1

/-- `put_descendants`, fueled.  The source recursion is unbounded; `none`
means the recursion did not finish within `fuel` nested calls. -/
def putDescendants : Nat → StrMap (Option Stop × List String) → Stop → StrMap Stop →
    Option (Except StopCommandError (StrMap Stop))
  | 0, _, _, _ => none
  | fuel + 1, idx, stop, descendants =>
      let descendants1 := StrMap.insert descendants stop.stop_id stop
      match StrMap.get? idx stop.stop_id with
      | none => some (Except.ok descendants1)
      | some entry => putChildrenWith idx (putDescendants fuel idx) entry.2 descendants1

/-- `StopsCommandInterpreter::clone_descendants`, fueled. -/
def cloneDescendants (fuel : Nat) (schedule : GtfsSchedule) (stop_id : String) :
    Option (Except StopCommandError Stops) :=
  let idx := stopsAndChildren schedule.stops.stops
  match (StrMap.get? idx stop_id).bind Prod.fst with
  | none => some (Except.error (StopCommandError.noSuchStop stop_id))
  | some root =>
      match putDescendants fuel idx root [] with
      | none => none
      | some (Except.error e) =>
          some (Except.error (StopCommandError.errorGettingDescendants stop_id e))
      | some (Except.ok descendants) => some (Except.ok ⟨descendants⟩)

/-- The stop-times fold of `StopsCommandInterpreter::stop`: entries whose
stop is in the projected subtree, grouped by trip id. -/
def stopStopTimes (schedule : GtfsSchedule) (stopsProj : Stops) :
    StrMap (List StopTime) :=
  groupPairs
    (schedule.stop_times.iter.filterMap (fun stop_time =>
      stop_time.stop_id.bind (fun sid =>
        (StrMap.get? stopsProj.stops sid).map
          (fun _ => (stop_time.trip_id, stop_time)))))
    []

/-- The trips fold of `StopsCommandInterpreter::stop`: trips whose id
keys the selected stop-times, grouped by route id as an intermediate. -/
def stopTripsByRoute (schedule : GtfsSchedule) (stopsProj : Stops) :
    StrMap (List Trip) :=
  groupPairs
    ((StrMap.vals schedule.trips.trips).filterMap (fun trip =>
      (StrMap.get? (stopStopTimes schedule stopsProj) trip.trip_id).map
        (fun _ => (trip.route_id, trip))))
    []

/-- The routes filter of `StopsCommandInterpreter::stop`. -/
def stopRoutes (schedule : GtfsSchedule) (stopsProj : Stops) : StrMap Route :=
  StrMap.ofList ((StrMap.vals schedule.routes.routes).filterMap (fun route =>
    (StrMap.get? (stopTripsByRoute schedule stopsProj) route.route_id).map
      (fun _ => (route.route_id, route))))

/-- The trips collect of `StopsCommandInterpreter::stop`: the intermediate
grouping flattened back and keyed by trip id. -/
def stopTrips (schedule : GtfsSchedule) (stopsProj : Stops) : StrMap Trip :=
  StrMap.ofList (((StrMap.vals (stopTripsByRoute schedule stopsProj)).flatten).map
    (fun trip => (trip.trip_id, trip)))

/-- The body of `StopsCommandInterpreter::stop` after a successful
descendant computation: select the stop-times touching the subtree
(grouped by trip id), the trips owning them (grouped by route id as an
intermediate), and the routes those trips reference. -/
def stopProjection (schedule : GtfsSchedule) (stopsProj : Stops) (raw_stop : Stop)
    (stop_id : String) : GtfsNode :=
  GtfsNode.mk
    ⟨stopsProj, ⟨stopRoutes schedule stopsProj⟩, ⟨stopTrips schedule stopsProj⟩,
      ⟨stopStopTimes schedule stopsProj⟩⟩
    none stop_id raw_stop.get_stop_name

/-- `StopsCommandInterpreter::stop`: project the schedule onto one stop
and its descendant subtree, fueled through the descendant traversal. -/
def StopsCommandInterpreter.stop (fuel : Nat) (schedule : GtfsSchedule)
    (stop_id : String) : Option (Except StopCommandError GtfsNode) :=
  match StrMap.get? schedule.stops.stops stop_id with
  | none => some (Except.error (StopCommandError.noSuchStop stop_id))
  | some raw_stop =>
      match cloneDescendants fuel schedule stop_id with
      | none => none
      | some (Except.error e) => some (Except.error e)
      | some (Except.ok stopsProj) =>
          some (Except.ok (stopProjection schedule stopsProj raw_stop stop_id))

/-! ### Command dispatcher (`src/commands/gtfs.rs` and the interpreters) -/

/-- `TripsCommandError` — an empty enum in the source. -/
inductive TripsCommandError : Type

/-- The `Display` rendering of `TripsCommandError` (vacuous). -/
def TripsCommandError.display (e : TripsCommandError) : String := nomatch e

mutual

/-- `GTFSCommandInterpreterError` of `src/commands/gtfs.rs`. -/
inductive GTFSCommandInterpreterError where
  | invalidCommand (command : String)
  | stopsSubcommandRequired
  | stopsSubcommandError (cause : StopsCommandError)
  | routesCommandError (cause : RoutesCommandError)
  | tripsCommandError (cause : TripsCommandError)

/-- `RoutesCommandError` of `src/commands/routes.rs`; `errorGettingRoute`
carries the rendered message, as `e.to_string()` does in the source. -/
inductive RoutesCommandError where
  | invalidCommand (command : String)
  | errorGettingRoute (message : String)
  | errorExecutingCommandForRoute (route_id : String) (cause : GTFSCommandInterpreterError)
  | noSuchRoute (route_id : String)

/-- `StopsCommandError` of `src/commands/stops.rs`. -/
inductive StopsCommandError where
  | invalidCommand (command : String)
  | errorGettingStop (message : String)
  | errorExecutingCommandForStop (stop_id : String) (cause : GTFSCommandInterpreterError)

end

mutual

/-- The `Display` rendering of `GTFSCommandInterpreterError`. -/
def GTFSCommandInterpreterError.display : GTFSCommandInterpreterError → String
  | .invalidCommand command => "Invalid command: " ++ command
  | .stopsSubcommandRequired => "Stops subcommand required"
  | .stopsSubcommandError cause =>
      "Error interpreting stops subcommand: " ++ cause.display
  | .routesCommandError cause =>
      "Error interpreting routes command: " ++ cause.display
  | .tripsCommandError cause =>
      "Error interpreting trips command: " ++ cause.display

/-- The `Display` rendering of `RoutesCommandError`. -/
def RoutesCommandError.display : RoutesCommandError → String
  | .invalidCommand command => "Invalid command: " ++ command
  | .errorGettingRoute message => "Error getting route: " ++ message
  | .errorExecutingCommandForRoute route_id cause =>
      "Error executing command for route " ++ route_id ++ ": " ++ cause.display
  | .noSuchRoute route_id => "No such route: " ++ route_id

/-- The `Display` rendering of `StopsCommandError`. -/
def StopsCommandError.display : StopsCommandError → String
  | .invalidCommand command => "Invalid command: " ++ command
  | .errorGettingStop message => "Error getting stop: " ++ message
  | .errorExecutingCommandForStop stop_id cause =>
      "Error executing command for stop " ++ stop_id ++ ": " ++ cause.display

end

/-- The trips filter of `RoutesCommandInterpreter::route`: trips of the
selected route, keyed by trip id. -/
def routeTrips (schedule : GtfsSchedule) (route_id : String) : StrMap Trip :=
  StrMap.ofList
    (((StrMap.vals schedule.trips.trips).filter
        (fun trip => trip.route_id == route_id)).map
      (fun trip => (trip.trip_id, trip)))

/-- The stop-times fold of `RoutesCommandInterpreter::route`: entries of
the selected trips that carry a stop id, grouped by stop id. -/
def routeStopTimesByStop (schedule : GtfsSchedule) (route_id : String) :
    StrMap (List StopTime) :=
  groupPairs
    (schedule.stop_times.iter.filterMap (fun stop_time =>
      stop_time.stop_id.bind (fun sid =>
        (StrMap.get? (routeTrips schedule route_id) stop_time.trip_id).map
          (fun _ => (sid, stop_time)))))
    []

/-- The stops filter of `RoutesCommandInterpreter::route`. -/
def routeStops (schedule : GtfsSchedule) (route_id : String) : StrMap Stop :=
  StrMap.ofList ((StrMap.vals schedule.stops.stops).filterMap (fun stop =>
    (StrMap.get? (routeStopTimesByStop schedule route_id) stop.stop_id).map
      (fun _ => (stop.stop_id, stop))))

/-- `RoutesCommandInterpreter::route`: project the schedule of `node`
onto a single route.  Unlike the stop projection this is built from
non-recursive filters and needs no fuel: it is total by construction. -/
def RoutesCommandInterpreter.route (node : GtfsNode) (route_id : String) :
    Except RoutesCommandError GtfsNode :=
  match StrMap.get? node.gtfs.routes.routes route_id with
  | none => Except.error (RoutesCommandError.noSuchRoute route_id)
  | some raw_route =>
      Except.ok (GtfsNode.mk
        ⟨⟨routeStops node.gtfs route_id⟩, ⟨[(route_id, raw_route)]⟩,
          ⟨routeTrips node.gtfs route_id⟩,
          ⟨StrMap.ofList (routeStopTimesByStop node.gtfs route_id)⟩⟩
        (some node) route_id (some raw_route.displayName))

/-- Structured output of a command: what the terminal actions print.
Console formatting and coloring are out of scope; each action's payload is
kept as data. -/
inductive Output where
  | scheduleInfo
  | stopsList (lines : List (String × Option String))
  | stopsInfo (count : Nat)
  | routesList (lines : List (String × String))
  | routesInfo (count : Nat)
  | tripsUnit
deriving DecidableEq

/-- Result of one interpreter call: success with its output, a typed
error, or a Rust panic. -/
inductive CmdRes (ε : Type) where
  | ok (output : Output)
  | err (e : ε)
  | panicked

/-- Rebuild a result with the error type mapped (`map_err`). -/
def CmdRes.mapErr {ε ε' : Type} (f : ε → ε') : CmdRes ε → CmdRes ε'
  | .ok output => .ok output
  | .err e => .err (f e)
  | .panicked => .panicked

/-- The `(first, rest)` split of a command line:
`command.find(".").and_then(|i| command.split_at_checked(i)).unwrap_or((command, ""))`.
`first` is everything before the first dot (the whole string when there is
no dot); `rest` keeps its leading dot, exactly as the Rust `split_at`
does. -/
def splitFirst (command : String) : String × String :=
  (String.mk (command.toList.takeWhile (fun c => c ≠ '.')),
   String.mk (command.toList.dropWhile (fun c => c ≠ '.')))

/-- `rest.chars().skip(1).collect()` / `&rest[1..]` when `rest` is known
non-empty: drop the leading separator character. -/
def strTail (s : String) : String := String.mk (s.toList.drop 1)

/-- `try_tail` of `src/commands/gtfs.rs`: drop one char, `None` if empty. -/
def tryTail (s : String) : Option String :=
  let s1 := strTail s
  if s1 = "" then none else some s1

/-- `RoutesCommandInterpreter::list`: one line per route, id plus display
name (`"Long (Short)"` when both names exist, else `Route::name`). -/
def RoutesCommandInterpreter.listLines (schedule : GtfsSchedule) :
    List (String × String) :=
  (StrMap.vals schedule.routes.routes).map (fun route =>
    (route.route_id,
      match route.route_long_name, route.route_short_name with
      | some longName, some shortName => longName ++ " (" ++ shortName ++ ")"
      | _, _ => route.displayName))

/-- `StopsCommandInterpreter::list`: one line per stop, id plus optional
name (the source prints "Unnamed Location" for `None`). -/
def StopsCommandInterpreter.listLines (schedule : GtfsSchedule) :
    List (String × Option String) :=
  (StrMap.vals schedule.stops.stops).map (fun stop =>
    (stop.stop_id, stop.get_stop_name))

/-- `TripsCommandInterpreter::interpret`: splits the command and returns
`Ok(())` unconditionally. -/
def TripsCommandInterpreter.interpret (_schedule : GtfsSchedule)
    (_command : String) : CmdRes TripsCommandError :=
  CmdRes.ok Output.tripsUnit

mutual

/-- `GtfsNode::interpret` (`src/commands/gtfs.rs`).  The `stops` branch
guards the empty remainder with `try_tail`; the `routes` and `trips`
branches slice `&rest[1..]` unconditionally, which panics when `rest` is
empty (no dot in the command).  `fuel` bounds the navigation/traversal
recursion depth; `none` models non-termination, `panicked` a Rust panic. -/
def GtfsNode.interpret : Nat → GtfsNode → String → Option (CmdRes GTFSCommandInterpreterError)
  | fuel, node, command =>
    let fr := splitFirst command
    if fr.1 = "info" then some (CmdRes.ok Output.scheduleInfo)
    else if fr.1 = "stops" then
      match tryTail fr.2 with
      | some tail =>
          (StopsCommandInterpreter.interpret fuel node.gtfs tail).map
            (CmdRes.mapErr (fun e => GTFSCommandInterpreterError.stopsSubcommandError e))
      | none => some (CmdRes.err GTFSCommandInterpreterError.stopsSubcommandRequired)
    else if fr.1 = "routes" then
      if fr.2 = "" then some CmdRes.panicked
      else
        (RoutesCommandInterpreter.interpret fuel node (strTail fr.2)).map
          (CmdRes.mapErr (fun e => GTFSCommandInterpreterError.routesCommandError e))
    else if fr.1 = "trips" then
      if fr.2 = "" then some CmdRes.panicked
      else
        some ((TripsCommandInterpreter.interpret node.gtfs (strTail fr.2)).mapErr
          (fun e => GTFSCommandInterpreterError.tripsCommandError e))
    else some (CmdRes.err (GTFSCommandInterpreterError.invalidCommand command))
termination_by fuel node command => (fuel, 1)

/-- `RoutesCommandInterpreter::interpret`: `list` and `info` are matched
before any route-id lookup; an unmatched first segment is looked up as a
route id and, on a hit, navigation recurses into the projected child. -/
def RoutesCommandInterpreter.interpret : Nat → GtfsNode → String →
    Option (CmdRes RoutesCommandError)
  | fuel, node, command =>
    let fr := splitFirst command
    if fr.1 = "list" then
      some (CmdRes.ok (Output.routesList (RoutesCommandInterpreter.listLines node.gtfs)))
    else if fr.1 = "info" then
      some (CmdRes.ok (Output.routesInfo node.gtfs.routes.routes.length))
    else
      match StrMap.get? node.gtfs.routes.routes fr.1 with
      | none => some (CmdRes.err (RoutesCommandError.invalidCommand command))
      | some route =>
          match RoutesCommandInterpreter.route node route.route_id with
          | Except.error e => some (CmdRes.err (RoutesCommandError.errorGettingRoute e.display))
          | Except.ok child =>
              match fuel with
              | 0 => none
              | fuel1 + 1 =>
                  (GtfsNode.interpret fuel1 child (strTail fr.2)).map
                    (CmdRes.mapErr (fun e =>
                      RoutesCommandError.errorExecutingCommandForRoute route.route_id e))
termination_by fuel node command => (fuel, 0)

/-- `StopsCommandInterpreter::interpret`: same shape as the routes
interpreter, with the stop projection (which may diverge) in the id
branch. -/
def StopsCommandInterpreter.interpret : Nat → GtfsSchedule → String →
    Option (CmdRes StopsCommandError)
  | fuel, schedule, command =>
    let fr := splitFirst command
    if fr.1 = "list" then
      some (CmdRes.ok (Output.stopsList (StopsCommandInterpreter.listLines schedule)))
    else if fr.1 = "info" then
      some (CmdRes.ok (Output.stopsInfo schedule.stops.stops.length))
    else
      match StrMap.get? schedule.stops.stops fr.1 with
      | none => some (CmdRes.err (StopsCommandError.invalidCommand command))
      | some stop1 =>
          match StopsCommandInterpreter.stop fuel schedule stop1.stop_id with
          | none => none
          | some (Except.error e) =>
              some (CmdRes.err (StopsCommandError.errorGettingStop e.display))
          | some (Except.ok child) =>
              match fuel with
              | 0 => none
              | fuel1 + 1 =>
                  (GtfsNode.interpret fuel1 child (strTail fr.2)).map
                    (CmdRes.mapErr (fun e =>
                      StopsCommandError.errorExecutingCommandForStop stop1.stop_id e))
termination_by fuel schedule command => (fuel, 0)

end

/-! ### Specification-side notions and concrete sample data -/

/-- Children recorded under a key of the parent→children index. -/
def childrenAt (idx : StrMap (Option Stop × List String)) (k : String) :
    List String :=
  ((StrMap.get? idx k).map Prod.snd).getD []

/-- Outcome kind of a fueled traversal result: `none` for out-of-fuel,
`some none` for success, `some (some e)` for error `e`. -/
def resKind {ε α : Type} : Option (Except ε α) → Option (Option ε)
  | none => none
  | some (Except.ok _) => some none
  | some (Except.error e) => some (some e)

/-- Spec-side descendant relation: `Desc stops root k` holds when `k` is
`root` itself or reachable from `root` by repeatedly following the
`parent_station` back-references of stops present in `stops`. -/
inductive Desc (stops : StrMap Stop) (root : String) : String → Prop where
  | refl : Desc stops root root
  | step {p c : String} {v : Stop} : Desc stops root p →
      StrMap.get? stops c = some v → v.parent_station = some p →
      Desc stops root c

/-- The documented indexing invariant of a collection: entries are keyed
by their own identity and keys are distinct. -/
def KeyedBy {α : Type} (m : StrMap α) (idOf : α → String) : Prop :=
  StrMap.NodupKeys m ∧ ∀ p ∈ m, idOf p.2 = p.1

instance {α : Type} (m : StrMap α) (idOf : α → String) :
    Decidable (KeyedBy m idOf) := by
  unfold KeyedBy; infer_instance

/-- Divergence of the stop projection: no amount of fuel finishes it. -/
def stopProjectionDiverges (schedule : GtfsSchedule) (stop_id : String) : Prop :=
  ∀ fuel, StopsCommandInterpreter.stop fuel schedule stop_id = none

/-- Referential closure of a schedule on trips: every stop-time record's
`trip_id` resolves to a trip of the same schedule. -/
def TripClosed (schedule : GtfsSchedule) : Prop :=
  ∀ st ∈ schedule.stop_times.iter,
    ∃ t ∈ StrMap.vals schedule.trips.trips, t.trip_id = st.trip_id

instance (schedule : GtfsSchedule) : Decidable (TripClosed schedule) := by
  unfold TripClosed
  infer_instance

/-- One stop entry respects a rank function: its rank is below its
parent's. -/
def parentRankOk (rank : String → Nat) (entry : String × Stop) : Prop :=
  match entry.2.parent_station with
  | some parent_id => rank entry.1 < rank parent_id
  | none => True

instance (rank : String → Nat) (entry : String × Stop) :
    Decidable (parentRankOk rank entry) := by
  unfold parentRankOk
  cases entry.2.parent_station with
  | none => exact inferInstanceAs (Decidable True)
  | some parent_id => exact inferInstanceAs (Decidable (_ < _))

/-- A witness of acyclicity of the `parent_station` relation: a rank
function strictly decreasing from parents to children. -/
def RankedParents (stops : StrMap Stop) (rank : String → Nat) : Prop :=
  ∀ entry ∈ stops, parentRankOk rank entry

instance (stops : StrMap Stop) (rank : String → Nat) :
    Decidable (RankedParents stops rank) := by
  unfold RankedParents; infer_instance

/-- Sample station "Downtown". -/
def stopA : Stop := ⟨"A", .station ⟨"Downtown"⟩⟩

/-- Sample platform, child of `"A"`. -/
def stopA1 : Stop := ⟨"A1", .stop ⟨"Platform 1", some "A"⟩⟩

/-- Sample free-standing stop. -/
def stopB : Stop := ⟨"B", .stop ⟨"Elsewhere", none⟩⟩

/-- Sample route with both names. -/
def routeR1 : Route := ⟨"R1", .longAndShort "Red Line" "RL"⟩

/-- Sample route with zero trips. -/
def routeR2 : Route := ⟨"R2", .short "S2"⟩

/-- Sample trip on route `"R1"`. -/
def tripT1 : Trip := ⟨"T1", "R1", "SVC"⟩

/-- Stop-time of trip `"T1"` at stop `"A1"`. -/
def stT1A1 : StopTime := ⟨"T1", some "A1", 1⟩

/-- Stop-time of trip `"T1"` at stop `"B"`. -/
def stT1B : StopTime := ⟨"T1", some "B", 2⟩

/-- A small consistent schedule exercising every collection. -/
def sampleSchedule : GtfsSchedule :=
  ⟨⟨[("A", stopA), ("A1", stopA1), ("B", stopB)]⟩,
   ⟨[("R1", routeR1), ("R2", routeR2)]⟩,
   ⟨[("T1", tripT1)]⟩,
   ⟨[("T1", [stT1A1, stT1B])]⟩⟩

/-- Root navigation node over `sampleSchedule`. -/
def sampleNode : GtfsNode := GtfsNode.mk sampleSchedule none "" none

/-- A rank function witnessing acyclicity of `sampleSchedule`'s stops. -/
def sampleRank (s : String) : Nat := if s = "A" then 1 else 0

/-- Stop whose parent is `"B"`, half of a parent cycle. -/
def cycStopA : Stop := ⟨"A", .stop ⟨"CycA", some "B"⟩⟩

/-- Stop whose parent is `"A"`, the other half of the cycle. -/
def cycStopB : Stop := ⟨"B", .stop ⟨"CycB", some "A"⟩⟩

/-- A schedule whose two stops form a `parent_station` cycle. -/
def cycSchedule : GtfsSchedule :=
  ⟨⟨[("A", cycStopA), ("B", cycStopB)]⟩, ⟨[]⟩, ⟨[]⟩, ⟨[]⟩⟩

/-- A stop-time whose `trip_id` resolves to no trip of its schedule. -/
def orphanStopTime : StopTime := ⟨"T", some "A", 1⟩

/-- An inconsistent root schedule: a stop-time references the missing
trip `"T"`. -/
def orphanSchedule : GtfsSchedule :=
  ⟨⟨[("A", stopA)]⟩, ⟨[]⟩, ⟨[]⟩, ⟨[("T", [orphanStopTime])]⟩⟩

/-- Minimal route for the stop-times regrouping check. -/
def routeR3 : Route := ⟨"R", .long "Line"⟩

/-- Minimal trip for the stop-times regrouping check. -/
def tripT3 : Trip := ⟨"T", "R", "SVC"⟩

/-- Minimal stop-time for the regrouping check. -/
def stT3 : StopTime := ⟨"T", some "A", 1⟩

/-- One-route, one-trip, one-stop schedule whose single stop-time ties
them together. -/
def sched3 : GtfsSchedule :=
  ⟨⟨[("A", stopA)]⟩, ⟨[("R", routeR3)]⟩, ⟨[("T", tripT3)]⟩, ⟨[("T", [stT3])]⟩⟩

/-- Root node over `sched3`. -/
def node3 : GtfsNode := GtfsNode.mk sched3 none "" none

/-- A route whose id collides with the literal command `list`. -/
def listRoute : Route := ⟨"list", .short "L"⟩

/-- A stop whose id collides with the literal command `info`. -/
def infoStop : Stop := ⟨"info", .station ⟨"Tricky"⟩⟩

/-- Schedule containing entities named after the literal commands. -/
def trickSchedule : GtfsSchedule :=
  ⟨⟨[("info", infoStop)]⟩, ⟨[("list", listRoute)]⟩, ⟨[]⟩, ⟨[]⟩⟩

/-- Root node over `trickSchedule`. -/
def trickNode : GtfsNode := GtfsNode.mk trickSchedule none "" none

/-! ### Lemmas about `StrMap` -/

theorem StrMap.get?_nil {α : Type} (k : String) :
    StrMap.get? ([] : StrMap α) k = none := rfl

theorem StrMap.get?_cons {α : Type} (a : String) (b : α) (m : StrMap α) (k : String) :
    StrMap.get? ((a, b) :: m) k = if a = k then some b else StrMap.get? m k := rfl

theorem StrMap.get?_insert {α : Type} (m : StrMap α) (k : String) (v : α) (k' : String) :
    StrMap.get? (StrMap.insert m k v) k' =
      if k = k' then some v else StrMap.get? m k' := by
  induction m with
  | nil =>
      simp only [StrMap.insert, StrMap.get?]
  | cons p rest ih =>
      obtain ⟨a, b⟩ := p
      by_cases hak : a = k
      · subst hak
        rw [show StrMap.insert ((a, b) :: rest) a v = (a, v) :: rest from
          by rw [StrMap.insert, if_pos rfl]]
        rw [StrMap.get?_cons, StrMap.get?_cons]
        by_cases hk' : a = k' <;> simp [hk']
      · rw [show StrMap.insert ((a, b) :: rest) k v = (a, b) :: StrMap.insert rest k v from
          by rw [StrMap.insert, if_neg hak]]
        rw [StrMap.get?_cons, ih, StrMap.get?_cons]
        by_cases h1 : k = k' <;> by_cases h2 : a = k' <;>
          simp [h1, h2] <;> exact absurd (h2.trans h1.symm) hak

theorem StrMap.get?_adjust {α : Type} (m : StrMap α) (k : String) (dflt : α)
    (f : α → α) (k' : String) :
    StrMap.get? (StrMap.adjust m k dflt f) k' =
      if k = k' then some (f ((StrMap.get? m k).getD dflt))
      else StrMap.get? m k' := by
  induction m with
  | nil =>
      simp only [StrMap.adjust, StrMap.get?, StrMap.get?_cons, Option.getD_none]
  | cons p rest ih =>
      obtain ⟨a, b⟩ := p
      by_cases hak : a = k
      · subst hak
        rw [show StrMap.adjust ((a, b) :: rest) a dflt f = (a, f b) :: rest from
          by rw [StrMap.adjust, if_pos rfl]]
        rw [StrMap.get?_cons, StrMap.get?_cons]
        by_cases hk' : a = k' <;> simp [hk', StrMap.get?_cons]
      · rw [show StrMap.adjust ((a, b) :: rest) k dflt f =
            (a, b) :: StrMap.adjust rest k dflt f from
          by rw [StrMap.adjust, if_neg hak]]
        rw [StrMap.get?_cons, ih, StrMap.get?_cons]
        by_cases h1 : k = k' <;> by_cases h2 : a = k' <;>
          simp [h1, h2, hak, StrMap.get?_cons] <;> exact absurd (h2.trans h1.symm) hak

theorem StrMap.mem_of_get? {α : Type} {m : StrMap α} {k : String} {v : α}
    (h : StrMap.get? m k = some v) : (k, v) ∈ m := by
  induction m with
  | nil => cases h
  | cons p rest ih =>
      obtain ⟨a, b⟩ := p
      rw [StrMap.get?_cons] at h
      by_cases hak : a = k
      · subst hak
        rw [if_pos rfl] at h
        cases h
        exact List.mem_cons_self _ _
      · rw [if_neg hak] at h
        exact List.mem_cons_of_mem _ (ih h)

theorem StrMap.get?_isSome_of_mem {α : Type} {m : StrMap α} {k : String} {v : α}
    (h : (k, v) ∈ m) : (StrMap.get? m k).isSome := by
  induction m with
  | nil => cases h
  | cons p rest ih =>
      obtain ⟨a, b⟩ := p
      rcases List.mem_cons.mp h with h1 | h1
      · cases h1
        simp [StrMap.get?_cons]
      · rw [StrMap.get?_cons]
        by_cases hak : a = k
        · simp [hak]
        · simpa [hak] using ih h1

theorem StrMap.get?_isSome_iff_mem_keys {α : Type} (m : StrMap α) (k : String) :
    (StrMap.get? m k).isSome ↔ k ∈ StrMap.keys m := by
  constructor
  · intro h
    obtain ⟨v, hv⟩ := Option.isSome_iff_exists.mp h
    exact List.mem_map.mpr ⟨(k, v), StrMap.mem_of_get? hv, rfl⟩
  · intro h
    obtain ⟨⟨a, b⟩, hab, hk⟩ := List.mem_map.mp h
    cases hk
    exact StrMap.get?_isSome_of_mem hab

theorem StrMap.get?_eq_none_iff {α : Type} (m : StrMap α) (k : String) :
    StrMap.get? m k = none ↔ k ∉ StrMap.keys m := by
  rw [← StrMap.get?_isSome_iff_mem_keys]
  cases StrMap.get? m k <;> simp

theorem StrMap.get?_of_mem {α : Type} {m : StrMap α} {k : String} {v : α}
    (hn : StrMap.NodupKeys m) (h : (k, v) ∈ m) : StrMap.get? m k = some v := by
  induction m with
  | nil => cases h
  | cons p rest ih =>
      obtain ⟨a, b⟩ := p
      have hn2 : StrMap.NodupKeys rest := (List.nodup_cons.mp hn).2
      rcases List.mem_cons.mp h with h1 | h1
      · cases h1
        simp [StrMap.get?_cons]
      · rw [StrMap.get?_cons]
        have hka : a ≠ k := by
          intro hak
          subst hak
          exact (List.nodup_cons.mp hn).1
            (List.mem_map.mpr ⟨(a, v), h1, rfl⟩)
        simp only [if_neg hka]
        exact ih hn2 h1

theorem StrMap.mem_iff_get? {α : Type} {m : StrMap α} (hn : StrMap.NodupKeys m)
    (k : String) (v : α) : (k, v) ∈ m ↔ StrMap.get? m k = some v :=
  ⟨fun h => StrMap.get?_of_mem hn h, fun h => StrMap.mem_of_get? h⟩

theorem StrMap.keys_insert {α : Type} (m : StrMap α) (k : String) (v : α) :
    StrMap.keys (StrMap.insert m k v) =
      if k ∈ StrMap.keys m then StrMap.keys m else StrMap.keys m ++ [k] := by
  induction m with
  | nil => simp [StrMap.insert, StrMap.keys]
  | cons p rest ih =>
      obtain ⟨a, b⟩ := p
      have hkeys : ∀ (q : String × α) (l : List (String × α)),
          StrMap.keys (q :: l) = q.1 :: StrMap.keys l := fun _ _ => rfl
      by_cases hak : a = k
      · subst hak
        rw [show StrMap.insert ((a, b) :: rest) a v = (a, v) :: rest from
          by rw [StrMap.insert, if_pos rfl]]
        simp [hkeys]
      · have hka : ¬k = a := fun h => hak h.symm
        rw [show StrMap.insert ((a, b) :: rest) k v = (a, b) :: StrMap.insert rest k v from
          by rw [StrMap.insert, if_neg hak]]
        rw [hkeys, hkeys, ih]
        by_cases hk : k ∈ StrMap.keys rest
        · simp [hk, hka]
        · simp [hk, hka]

theorem StrMap.nodupKeys_insert {α : Type} {m : StrMap α} (hn : StrMap.NodupKeys m)
    (k : String) (v : α) : StrMap.NodupKeys (StrMap.insert m k v) := by
  unfold StrMap.NodupKeys at hn ⊢
  rw [StrMap.keys_insert]
  by_cases hk : k ∈ StrMap.keys m
  · simpa [hk] using hn
  · simp only [hk, if_false]
    rw [List.nodup_append]
    refine ⟨hn, List.nodup_singleton k, ?_⟩
    intro a ha hmem
    have hak : a = k := by simpa using hmem
    exact hk (hak ▸ ha)

theorem StrMap.keys_adjust {α : Type} (m : StrMap α) (k : String) (dflt : α)
    (f : α → α) :
    StrMap.keys (StrMap.adjust m k dflt f) =
      if k ∈ StrMap.keys m then StrMap.keys m else StrMap.keys m ++ [k] := by
  induction m with
  | nil => simp [StrMap.adjust, StrMap.keys]
  | cons p rest ih =>
      obtain ⟨a, b⟩ := p
      have hkeys : ∀ (q : String × α) (l : List (String × α)),
          StrMap.keys (q :: l) = q.1 :: StrMap.keys l := fun _ _ => rfl
      by_cases hak : a = k
      · subst hak
        rw [show StrMap.adjust ((a, b) :: rest) a dflt f = (a, f b) :: rest from
          by rw [StrMap.adjust, if_pos rfl]]
        simp [hkeys]
      · have hka : ¬k = a := fun h => hak h.symm
        rw [show StrMap.adjust ((a, b) :: rest) k dflt f =
            (a, b) :: StrMap.adjust rest k dflt f from
          by rw [StrMap.adjust, if_neg hak]]
        rw [hkeys, hkeys, ih]
        by_cases hk : k ∈ StrMap.keys rest
        · simp [hk, hka]
        · simp [hk, hka]

theorem StrMap.insert_eq_append {α : Type} {m : StrMap α} {k : String}
    (hk : k ∉ StrMap.keys m) (v : α) :
    StrMap.insert m k v = m ++ [(k, v)] := by
  induction m with
  | nil => rfl
  | cons p rest ih =>
      obtain ⟨a, b⟩ := p
      have hak : a ≠ k := by
        intro h
        exact hk (by simp [StrMap.keys, h])
      have hk2 : k ∉ StrMap.keys rest := by
        intro h
        exact hk (by simp [StrMap.keys] at h ⊢; exact Or.inr h)
      simp [StrMap.insert, hak, ih hk2]

theorem StrMap.foldl_insert_eq_append {α : Type} (l : List (String × α)) :
    ∀ acc : StrMap α, (∀ p ∈ l, p.1 ∉ StrMap.keys acc) →
      (l.map Prod.fst).Nodup →
      l.foldl (fun a p => StrMap.insert a p.1 p.2) acc = acc ++ l := by
  induction l with
  | nil => intro acc _ _; simp
  | cons p rest ih =>
      intro acc hdisj hnod
      obtain ⟨a, b⟩ := p
      simp only [List.foldl_cons]
      have ha : a ∉ StrMap.keys acc := hdisj (a, b) (List.mem_cons_self _ _)
      rw [StrMap.insert_eq_append ha b]
      have hnod2 : (rest.map Prod.fst).Nodup := (List.nodup_cons.mp hnod).2
      have hdisj2 : ∀ q ∈ rest, q.1 ∉ StrMap.keys (acc ++ [(a, b)]) := by
        intro q hq hmem
        have : StrMap.keys (acc ++ [(a, b)]) = StrMap.keys acc ++ [a] := by
          simp [StrMap.keys]
        rw [this, List.mem_append] at hmem
        rcases hmem with h | h
        · exact hdisj q (List.mem_cons_of_mem _ hq) h
        · have hqa : q.1 = a := by simpa using h
          exact (List.nodup_cons.mp hnod).1
            (hqa ▸ List.mem_map.mpr ⟨q, hq, rfl⟩)
      rw [ih _ hdisj2 hnod2]
      simp

theorem StrMap.ofList_eq_self {α : Type} {l : List (String × α)}
    (h : (l.map Prod.fst).Nodup) : StrMap.ofList l = l := by
  have := StrMap.foldl_insert_eq_append l [] (by simp [StrMap.keys]) h
  simpa [StrMap.ofList] using this

theorem StrMap.ofList_get?_isSome {α : Type} (l : List (String × α)) (k : String) :
    (StrMap.get? (StrMap.ofList l) k).isSome ↔ k ∈ l.map Prod.fst := by
  suffices h : ∀ acc : StrMap α,
      (StrMap.get? (l.foldl (fun a p => StrMap.insert a p.1 p.2) acc) k).isSome ↔
        (StrMap.get? acc k).isSome ∨ k ∈ l.map Prod.fst by
    simpa [StrMap.ofList, StrMap.get?] using h []
  induction l with
  | nil => intro acc; simp
  | cons p rest ih =>
      intro acc
      obtain ⟨a, b⟩ := p
      simp only [List.foldl_cons, List.map_cons, List.mem_cons]
      rw [ih]
      rw [StrMap.get?_insert]
      by_cases hak : a = k
      · simp [hak]
      · have hka : ¬k = a := fun h => hak h.symm
        simp [hak, hka]

theorem StrMap.nodupKeys_nil {α : Type} : StrMap.NodupKeys ([] : StrMap α) :=
  List.nodup_nil

theorem StrMap.nodupKeys_adjust {α : Type} {m : StrMap α} (hn : StrMap.NodupKeys m)
    (k : String) (dflt : α) (f : α → α) :
    StrMap.NodupKeys (StrMap.adjust m k dflt f) := by
  unfold StrMap.NodupKeys at hn ⊢
  rw [StrMap.keys_adjust]
  by_cases hk : k ∈ StrMap.keys m
  · simpa [hk] using hn
  · simp only [hk, if_false]
    rw [List.nodup_append]
    refine ⟨hn, List.nodup_singleton k, ?_⟩
    intro a ha hmem
    have hak : a = k := by simpa using hmem
    exact hk (hak ▸ ha)

theorem StrMap.vals_cons {α : Type} (a : String) (b : α) (m : StrMap α) :
    StrMap.vals ((a, b) :: m) = b :: StrMap.vals m := rfl

theorem StrMap.mem_vals_iff {α : Type} (m : StrMap α) (v : α) :
    v ∈ StrMap.vals m ↔ ∃ k, (k, v) ∈ m := by
  unfold StrMap.vals
  rw [List.mem_map]
  constructor
  · rintro ⟨⟨k, w⟩, hmem, rfl⟩
    exact ⟨k, hmem⟩
  · rintro ⟨k, hmem⟩
    exact ⟨(k, v), hmem, rfl⟩

/-- Under the indexing invariant, lookup agrees with value membership. -/
theorem KeyedBy.get?_eq_some_iff {α : Type} {m : StrMap α} {idOf : α → String}
    (h : KeyedBy m idOf) (k : String) (v : α) :
    StrMap.get? m k = some v ↔ v ∈ StrMap.vals m ∧ idOf v = k := by
  constructor
  · intro hget
    have hmem := StrMap.mem_of_get? hget
    exact ⟨(StrMap.mem_vals_iff m v).mpr ⟨k, hmem⟩, h.2 (k, v) hmem⟩
  · rintro ⟨hv, hid⟩
    obtain ⟨k', hmem⟩ := (StrMap.mem_vals_iff m v).mp hv
    have : idOf v = k' := h.2 (k', v) hmem
    rw [this] at hid
    subst hid
    exact StrMap.get?_of_mem h.1 hmem

/-- Under the indexing invariant, the ids of the values are the keys. -/
theorem KeyedBy.map_idOf_vals {α : Type} {m : StrMap α} {idOf : α → String}
    (h : KeyedBy m idOf) : (StrMap.vals m).map idOf = StrMap.keys m := by
  unfold StrMap.vals StrMap.keys
  rw [List.map_map]
  exact List.map_congr_left (fun p hp => h.2 p hp)

/-- A `filterMap` whose body keeps a mapped value exactly when a lookup
hits (the `.map(|_| ...)` pattern of the source) is a filter followed by a
map. -/
theorem List.filterMap_optMap_isSome {α β γ : Type} (G : α → Option β) (h : α → γ)
    (l : List α) :
    l.filterMap (fun a => (G a).map (fun _ => h a)) =
      (l.filter (fun a => (G a).isSome)).map h := by
  induction l with
  | nil => rfl
  | cons a rest ih =>
      by_cases hG : (G a).isSome
      · obtain ⟨b, hb⟩ := Option.isSome_iff_exists.mp hG
        simp [List.filterMap_cons, List.filter_cons, hb, ih]
      · rw [Option.not_isSome_iff_eq_none] at hG
        simp [List.filterMap_cons, List.filter_cons, hG, ih]

/-- Shape of the stop-time selectors: bind the optional stop id, then keep
the entry when a lookup (possibly depending on that id) hits. -/
theorem Option.bind_optMap_eq_some {β γ : Type} (o : Option String)
    (G : String → Option β) (f : String → γ) (p : γ) :
    (o.bind (fun sid => (G sid).map (fun _ => f sid))) = some p ↔
      ∃ sid, o = some sid ∧ (G sid).isSome ∧ p = f sid := by
  cases o with
  | none => simp
  | some sid =>
      cases hG : G sid with
      | none => simp [hG]
      | some b =>
          simp only [Option.some_bind, hG, Option.map_some', Option.some.injEq]
          constructor
          · intro h
            exact ⟨sid, rfl, by simp [hG], h.symm⟩
          · rintro ⟨sid', hsid, _, rfl⟩
            cases hsid
            rfl

/-! ### Lemmas about `groupPairs` -/

theorem groupPairs_get?_isSome {α : Type} (l : List (String × α)) :
    ∀ (acc : StrMap (List α)) (k : String),
      (StrMap.get? (groupPairs l acc) k).isSome ↔
        (StrMap.get? acc k).isSome ∨ ∃ p ∈ l, p.1 = k := by
  induction l with
  | nil => intro acc k; simp [groupPairs]
  | cons p rest ih =>
      intro acc k
      rw [show groupPairs (p :: rest) acc = groupPairs rest (StrMap.pushAt acc p.1 p.2)
        from rfl]
      rw [ih]
      unfold StrMap.pushAt
      rw [StrMap.get?_adjust]
      by_cases hpk : p.1 = k
      · simp [hpk]
      · simp only [if_neg hpk, List.mem_cons]
        constructor
        · rintro (h | ⟨q, hq, rfl⟩)
          · exact Or.inl h
          · exact Or.inr ⟨q, Or.inr hq, rfl⟩
        · rintro (h | ⟨q, hq | hq, hqk⟩)
          · exact Or.inl h
          · exact absurd (hq ▸ hqk) hpk
          · exact Or.inr ⟨q, hq, hqk⟩

theorem groupPairs_nodupKeys {α : Type} (l : List (String × α)) :
    ∀ acc : StrMap (List α), StrMap.NodupKeys acc →
      StrMap.NodupKeys (groupPairs l acc) := by
  induction l with
  | nil => intro acc h; exact h
  | cons p rest ih =>
      intro acc h
      exact ih _ (StrMap.nodupKeys_adjust h p.1 [] (fun old => old ++ [p.2]))

theorem StrMap.adjust_cons {α : Type} (a : String) (b : α) (rest : StrMap α)
    (k : String) (dflt : α) (f : α → α) :
    StrMap.adjust ((a, b) :: rest) k dflt f =
      if a = k then (a, f b) :: rest else (a, b) :: StrMap.adjust rest k dflt f := rfl

theorem flatten_vals_pushAt {α : Type} (acc : StrMap (List α)) (k : String) (v : α) :
    (StrMap.vals (StrMap.pushAt acc k v)).flatten.Perm
      (v :: (StrMap.vals acc).flatten) := by
  induction acc with
  | nil =>
      simp [StrMap.pushAt, StrMap.adjust, StrMap.vals]
  | cons q rest ih =>
      obtain ⟨a, b⟩ := q
      unfold StrMap.pushAt
      rw [StrMap.adjust_cons]
      by_cases hak : a = k
      · rw [if_pos hak]
        rw [StrMap.vals_cons, StrMap.vals_cons, List.flatten_cons, List.flatten_cons]
        rw [List.append_assoc, List.singleton_append]
        exact List.perm_middle
      · rw [if_neg hak]
        rw [StrMap.vals_cons, StrMap.vals_cons, List.flatten_cons, List.flatten_cons]
        have ih2 : (StrMap.vals (StrMap.adjust rest k [] (fun l => l ++ [v]))).flatten.Perm
            (v :: (StrMap.vals rest).flatten) := ih
        exact ((ih2.append_left b).trans List.perm_middle)

theorem flatten_vals_groupPairs {α : Type} (l : List (String × α)) :
    ∀ acc : StrMap (List α),
      (StrMap.vals (groupPairs l acc)).flatten.Perm
        ((StrMap.vals acc).flatten ++ l.map Prod.snd) := by
  induction l with
  | nil => intro acc; simp [groupPairs]
  | cons p rest ih =>
      intro acc
      rw [show groupPairs (p :: rest) acc = groupPairs rest (StrMap.pushAt acc p.1 p.2)
        from rfl]
      refine (ih _).trans ?_
      refine (((flatten_vals_pushAt acc p.1 p.2).append_right (rest.map Prod.snd)).trans ?_)
      rw [List.map_cons]
      exact List.perm_middle.symm

theorem flatten_vals_groupPairs_nil {α : Type} (l : List (String × α)) :
    (StrMap.vals (groupPairs l [])).flatten.Perm (l.map Prod.snd) := by
  simpa [StrMap.vals] using flatten_vals_groupPairs l []

/-! ### Lemmas about the parent→children index `stopsAndChildren` -/

theorem childrenAt_adjust_set (acc : StrMap (Option Stop × List String))
    (k : String) (v : Stop) (y : String) :
    childrenAt (StrMap.adjust acc k (none, []) (fun p => (some v, p.2))) y =
      childrenAt acc y := by
  unfold childrenAt
  rw [StrMap.get?_adjust]
  by_cases hky : k = y
  · subst hky
    cases hacc : StrMap.get? acc k <;> simp [hacc]
  · rw [if_neg hky]

theorem childrenAt_adjust_push (acc : StrMap (Option Stop × List String))
    (pid c : String) (y : String) :
    childrenAt (StrMap.adjust acc pid (none, []) (fun p => (p.1, p.2 ++ [c]))) y =
      if pid = y then childrenAt acc y ++ [c] else childrenAt acc y := by
  unfold childrenAt
  rw [StrMap.get?_adjust]
  by_cases hky : pid = y
  · subst hky
    cases hacc : StrMap.get? acc pid <;> simp [hacc]
  · rw [if_neg hky, if_neg hky]

theorem bindFst_adjust_set (acc : StrMap (Option Stop × List String))
    (k : String) (v : Stop) (k' : String) :
    ((StrMap.get? (StrMap.adjust acc k (none, []) (fun p => (some v, p.2))) k').bind
        Prod.fst) =
      if k = k' then some v else (StrMap.get? acc k').bind Prod.fst := by
  rw [StrMap.get?_adjust]
  by_cases hkk : k = k'
  · simp [hkk]
  · rw [if_neg hkk, if_neg hkk]

theorem bindFst_adjust_push (acc : StrMap (Option Stop × List String))
    (pid c : String) (k' : String) :
    ((StrMap.get? (StrMap.adjust acc pid (none, []) (fun p => (p.1, p.2 ++ [c]))) k').bind
        Prod.fst) =
      (StrMap.get? acc k').bind Prod.fst := by
  rw [StrMap.get?_adjust]
  by_cases hkk : pid = k'
  · subst hkk
    cases hacc : StrMap.get? acc pid <;> simp [hacc]
  · rw [if_neg hkk]

theorem childrenAt_step (acc : StrMap (Option Stop × List String))
    (entry : String × Stop) (y : String) :
    childrenAt (stopsAndChildrenStep acc entry) y =
      if entry.2.parent_station = some y then childrenAt acc y ++ [entry.1]
      else childrenAt acc y := by
  unfold stopsAndChildrenStep
  cases hpar : entry.2.parent_station with
  | none =>
      rw [childrenAt_adjust_set]
      simp
  | some pid =>
      rw [childrenAt_adjust_push, childrenAt_adjust_set]
      by_cases hpy : pid = y
      · subst hpy
        simp
      · rw [if_neg hpy, if_neg (fun h => hpy (Option.some.inj h))]

theorem bindFst_step (acc : StrMap (Option Stop × List String))
    (entry : String × Stop) (k : String) :
    ((StrMap.get? (stopsAndChildrenStep acc entry) k).bind Prod.fst) =
      if entry.1 = k then some entry.2 else (StrMap.get? acc k).bind Prod.fst := by
  unfold stopsAndChildrenStep
  cases hpar : entry.2.parent_station with
  | none => rw [bindFst_adjust_set]
  | some pid => rw [bindFst_adjust_push, bindFst_adjust_set]

theorem childrenAt_go (l : List (String × Stop)) :
    ∀ acc y, childrenAt (stopsAndChildrenGo l acc) y =
      childrenAt acc y ++
        (l.filter (fun e => e.2.parent_station == some y)).map Prod.fst := by
  induction l with
  | nil => intro acc y; simp [stopsAndChildrenGo]
  | cons e rest ih =>
      intro acc y
      rw [show stopsAndChildrenGo (e :: rest) acc =
        stopsAndChildrenGo rest (stopsAndChildrenStep acc e) from rfl]
      rw [ih, childrenAt_step, List.filter_cons]
      by_cases hpar : e.2.parent_station = some y
      · simp [hpar]
      · simp [hpar]

theorem mem_childrenAt_sac (stops : StrMap Stop) (c y : String) :
    c ∈ childrenAt (stopsAndChildren stops) y ↔
      ∃ v, (c, v) ∈ stops ∧ v.parent_station = some y := by
  unfold stopsAndChildren
  rw [childrenAt_go]
  have hempty : childrenAt [] y = [] := rfl
  rw [hempty, List.nil_append, List.mem_map]
  constructor
  · rintro ⟨e, he, rfl⟩
    have := List.mem_filter.mp he
    exact ⟨e.2, by simpa using this.1, by simpa using this.2⟩
  · rintro ⟨v, hv, hpar⟩
    exact ⟨(c, v), List.mem_filter.mpr ⟨hv, by simpa using hpar⟩, rfl⟩

theorem bindFst_go (l : List (String × Stop)) :
    ∀ acc k, (l.map Prod.fst).Nodup →
      ((StrMap.get? (stopsAndChildrenGo l acc) k).bind Prod.fst) =
        (StrMap.get? l k).or ((StrMap.get? acc k).bind Prod.fst) := by
  induction l with
  | nil => intro acc k _; simp [stopsAndChildrenGo, StrMap.get?]
  | cons e rest ih =>
      intro acc k hn
      rw [show stopsAndChildrenGo (e :: rest) acc =
        stopsAndChildrenGo rest (stopsAndChildrenStep acc e) from rfl]
      rw [ih _ _ (List.nodup_cons.mp hn).2, bindFst_step]
      obtain ⟨a, b⟩ := e
      rw [StrMap.get?_cons]
      by_cases hak : a = k
      · subst hak
        have hnotin : StrMap.get? rest a = none := by
          rw [StrMap.get?_eq_none_iff]
          exact fun h => (List.nodup_cons.mp hn).1 h
        simp [hnotin]
      · simp [hak]

theorem bindFst_isSome_go (l : List (String × Stop)) :
    ∀ acc k, k ∈ l.map Prod.fst ∨ ((StrMap.get? acc k).bind Prod.fst).isSome →
      ((StrMap.get? (stopsAndChildrenGo l acc) k).bind Prod.fst).isSome := by
  induction l with
  | nil =>
      intro acc k h
      rcases h with h | h
      · cases h
      · exact h
  | cons e rest ih =>
      intro acc k h
      rw [show stopsAndChildrenGo (e :: rest) acc =
        stopsAndChildrenGo rest (stopsAndChildrenStep acc e) from rfl]
      apply ih
      rw [bindFst_step]
      by_cases hek : e.1 = k
      · simp [hek]
      · rcases h with h | h
        · rw [List.map_cons, List.mem_cons] at h
          rcases h with h1 | h1
          · exact absurd h1.symm hek
          · exact Or.inl h1
        · simp only [if_neg hek]
          exact Or.inr h

theorem sac_bindFst_eq (stops : StrMap Stop) (k : String)
    (hn : StrMap.NodupKeys stops) :
    ((StrMap.get? (stopsAndChildren stops) k).bind Prod.fst) = StrMap.get? stops k := by
  unfold stopsAndChildren
  rw [bindFst_go stops [] k hn]
  simp [StrMap.get?]

theorem sac_bindFst_isSome (stops : StrMap Stop) (k : String)
    (h : k ∈ StrMap.keys stops) :
    ((StrMap.get? (stopsAndChildren stops) k).bind Prod.fst).isSome := by
  unfold stopsAndChildren
  exact bindFst_isSome_go stops [] k (Or.inl h)

/-! ### Lemmas about the descendant traversal -/

theorem putDescendants_zero (idx : StrMap (Option Stop × List String)) (stop : Stop)
    (acc : StrMap Stop) : putDescendants 0 idx stop acc = none := rfl

theorem putDescendants_succ (fuel : Nat) (idx : StrMap (Option Stop × List String))
    (stop : Stop) (acc : StrMap Stop) :
    putDescendants (fuel + 1) idx stop acc =
      match StrMap.get? idx stop.stop_id with
      | none => some (Except.ok (StrMap.insert acc stop.stop_id stop))
      | some entry =>
          putChildrenWith idx (putDescendants fuel idx) entry.2
            (StrMap.insert acc stop.stop_id stop) := rfl

theorem putChildrenWith_nil (idx : StrMap (Option Stop × List String))
    (visit : Stop → StrMap Stop → Option (Except StopCommandError (StrMap Stop)))
    (acc : StrMap Stop) : putChildrenWith idx visit [] acc = some (Except.ok acc) := rfl

theorem putChildrenWith_cons (idx : StrMap (Option Stop × List String))
    (visit : Stop → StrMap Stop → Option (Except StopCommandError (StrMap Stop)))
    (childId : String) (rest : List String) (acc : StrMap Stop) :
    putChildrenWith idx visit (childId :: rest) acc =
      match (StrMap.get? idx childId).bind Prod.fst with
      | none => some (Except.error (StopCommandError.noSuchStop childId))
      | some child =>
          match visit child acc with
          | none => none
          | some (Except.error e) =>
              some (Except.error (StopCommandError.errorGettingDescendants childId e))
          | some (Except.ok descendants1) => putChildrenWith idx visit rest descendants1
    := rfl

theorem resKind_eq_some_none_iff {ε α : Type} (r : Option (Except ε α)) :
    resKind r = some none ↔ ∃ m, r = some (Except.ok m) := by
  cases r with
  | none => simp [resKind]
  | some v => cases v <;> simp [resKind]

theorem resKind_eq_none_iff {ε α : Type} (r : Option (Except ε α)) :
    resKind r = none ↔ r = none := by
  cases r with
  | none => simp [resKind]
  | some v => cases v <;> simp [resKind]

theorem resKind_eq_some_some_iff {ε α : Type} (r : Option (Except ε α)) (e : ε) :
    resKind r = some (some e) ↔ r = some (Except.error e) := by
  cases r with
  | none => simp [resKind]
  | some v => cases v <;> simp [resKind]

theorem putChildrenWith_no_error
    (idx : StrMap (Option Stop × List String))
    (visit : Stop → StrMap Stop → Option (Except StopCommandError (StrMap Stop)))
    (hvisit : ∀ child acc e, visit child acc ≠ some (Except.error e)) :
    ∀ (L : List String) (acc : StrMap Stop) (e : StopCommandError),
      (∀ c ∈ L, ((StrMap.get? idx c).bind Prod.fst).isSome) →
      putChildrenWith idx visit L acc ≠ some (Except.error e) := by
  intro L
  induction L with
  | nil => intro acc e _ h; rw [putChildrenWith_nil] at h; cases h
  | cons c rest ih =>
      intro acc e hL
      rw [putChildrenWith_cons]
      obtain ⟨child, hchild⟩ := Option.isSome_iff_exists.mp (hL c (List.mem_cons_self _ _))
      rw [hchild]
      show (match visit child acc with
        | none => none
        | some (Except.error e1) =>
            some (Except.error (StopCommandError.errorGettingDescendants c e1))
        | some (Except.ok descendants1) =>
            putChildrenWith idx visit rest descendants1) ≠ some (Except.error e)
      cases hv : visit child acc with
      | none => simp
      | some res =>
          cases res with
          | error e1 =>
              exact absurd hv (hvisit child acc e1)
          | ok d1 =>
              exact ih d1 e (fun c' hc' => hL c' (List.mem_cons_of_mem _ hc'))

theorem putDescendants_no_error (stops : StrMap Stop) :
    ∀ (fuel : Nat) (stop : Stop) (acc : StrMap Stop) (e : StopCommandError),
      putDescendants fuel (stopsAndChildren stops) stop acc ≠
        some (Except.error e) := by
  intro fuel
  induction fuel with
  | zero => intro stop acc e h; rw [putDescendants_zero] at h; cases h
  | succ fuel ih =>
      intro stop acc e h
      rw [putDescendants_succ] at h
      cases hidx : StrMap.get? (stopsAndChildren stops) stop.stop_id with
      | none => rw [hidx] at h; cases h
      | some entry =>
          rw [hidx] at h
          refine putChildrenWith_no_error _ _ (fun child a e1 => ih child a e1) entry.2 _ e
            ?_ h
          intro c hc
          have hmem : c ∈ childrenAt (stopsAndChildren stops) stop.stop_id := by
            unfold childrenAt
            rw [hidx]
            simpa using hc
          obtain ⟨v, hv, _⟩ := (mem_childrenAt_sac stops c stop.stop_id).mp hmem
          exact sac_bindFst_isSome stops c (List.mem_map.mpr ⟨(c, v), hv, rfl⟩)

theorem putChildrenWith_resKind_indep
    (idx : StrMap (Option Stop × List String))
    (visit : Stop → StrMap Stop → Option (Except StopCommandError (StrMap Stop)))
    (hvisit : ∀ child a a', resKind (visit child a) = resKind (visit child a')) :
    ∀ (L : List String) (acc acc' : StrMap Stop),
      resKind (putChildrenWith idx visit L acc) =
        resKind (putChildrenWith idx visit L acc') := by
  intro L
  induction L with
  | nil => intro acc acc'; rfl
  | cons c rest ih =>
      intro acc acc'
      rw [putChildrenWith_cons, putChildrenWith_cons]
      cases hc : (StrMap.get? idx c).bind Prod.fst with
      | none => rfl
      | some child =>
          show resKind (match visit child acc with
            | none => none
            | some (Except.error e) =>
                some (Except.error (StopCommandError.errorGettingDescendants c e))
            | some (Except.ok descendants1) =>
                putChildrenWith idx visit rest descendants1) =
            resKind (match visit child acc' with
            | none => none
            | some (Except.error e) =>
                some (Except.error (StopCommandError.errorGettingDescendants c e))
            | some (Except.ok descendants1) =>
                putChildrenWith idx visit rest descendants1)
          cases hv : visit child acc with
          | none =>
              have : visit child acc' = none := by
                rw [← resKind_eq_none_iff]
                rw [← hvisit child acc acc', hv]
                rfl
              rw [this]
          | some res =>
              cases res with
              | error e =>
                  have : visit child acc' = some (Except.error e) := by
                    rw [← resKind_eq_some_some_iff]
                    rw [← hvisit child acc acc', hv]
                    rfl
                  rw [this]
              | ok d1 =>
                  have h2 : resKind (visit child acc') = some none := by
                    rw [← hvisit child acc acc', hv]
                    rfl
                  obtain ⟨d1', hd1'⟩ := (resKind_eq_some_none_iff _).mp h2
                  rw [hd1']
                  exact ih d1 d1'

theorem putDescendants_resKind_indep
    (idx : StrMap (Option Stop × List String)) :
    ∀ (fuel : Nat) (stop : Stop) (acc acc' : StrMap Stop),
      resKind (putDescendants fuel idx stop acc) =
        resKind (putDescendants fuel idx stop acc') := by
  intro fuel
  induction fuel with
  | zero => intro stop acc acc'; rfl
  | succ fuel ih =>
      intro stop acc acc'
      rw [putDescendants_succ, putDescendants_succ]
      cases hidx : StrMap.get? idx stop.stop_id with
      | none => rfl
      | some entry =>
          exact putChildrenWith_resKind_indep idx _ (fun child a a' => ih child a a')
            entry.2 _ _

theorem Desc.trans {stops : StrMap Stop} {r p k : String}
    (h1 : Desc stops r p) (h2 : Desc stops p k) : Desc stops r k := by
  induction h2 with
  | refl => exact h1
  | step _ hc hpar ih => exact Desc.step ih hc hpar

theorem Desc.present {stops : StrMap Stop} {r k : String}
    (hroot : (StrMap.get? stops r).isSome) (h : Desc stops r k) :
    (StrMap.get? stops k).isSome := by
  induction h with
  | refl => exact hroot
  | step _ hc _ _ => simp [hc]

theorem Desc.decompose {stops : StrMap Stop} {r k : String} (h : Desc stops r k) :
    k = r ∨ ∃ c v, StrMap.get? stops c = some v ∧ v.parent_station = some r ∧
      Desc stops c k := by
  induction h with
  | refl => exact Or.inl rfl
  | step _ hc hpar ih =>
      rcases ih with rfl | ⟨c0, v0, hc0, hpar0, hdesc0⟩
      · exact Or.inr ⟨_, _, hc, hpar, Desc.refl⟩
      · exact Or.inr ⟨c0, v0, hc0, hpar0, Desc.step hdesc0 hc hpar⟩

theorem putChildrenWith_ok_char
    (stops : StrMap Stop) (hWF : KeyedBy stops Stop.stop_id)
    (visit : Stop → StrMap Stop → Option (Except StopCommandError (StrMap Stop)))
    (hvisit : ∀ (child : Stop) (acc m : StrMap Stop),
      StrMap.get? stops child.stop_id = some child →
      visit child acc = some (Except.ok m) →
      ∀ k, (Desc stops child.stop_id k → StrMap.get? m k = StrMap.get? stops k) ∧
           (¬Desc stops child.stop_id k → StrMap.get? m k = StrMap.get? acc k)) :
    ∀ (L : List String) (acc m : StrMap Stop),
      putChildrenWith (stopsAndChildren stops) visit L acc = some (Except.ok m) →
      ∀ k, ((∃ c ∈ L, Desc stops c k) → StrMap.get? m k = StrMap.get? stops k) ∧
           (¬(∃ c ∈ L, Desc stops c k) →
              StrMap.get? m k = StrMap.get? acc k) := by
  intro L
  induction L with
  | nil =>
      intro acc m h k
      rw [putChildrenWith_nil] at h
      obtain rfl : acc = m := by
        injection h with h1
        injection h1
      constructor
      · rintro ⟨c, hc, _⟩; cases hc
      · intro _; rfl
  | cons c rest ih =>
      intro acc m
      rw [putChildrenWith_cons]
      cases hc : (StrMap.get? (stopsAndChildren stops) c).bind Prod.fst with
      | none =>
          intro h
          cases Option.some.inj h
      | some child =>
          have hstop : StrMap.get? stops c = some child := by
            rw [← sac_bindFst_eq stops c hWF.1]
            exact hc
          have hcid : child.stop_id = c := hWF.2 (c, child) (StrMap.mem_of_get? hstop)
          show (match visit child acc with
            | none => none
            | some (Except.error e) =>
                some (Except.error (StopCommandError.errorGettingDescendants c e))
            | some (Except.ok descendants1) =>
                putChildrenWith (stopsAndChildren stops) visit rest descendants1) =
              some (Except.ok m) → _
          cases hv : visit child acc with
          | none => intro h; cases h
          | some res =>
              cases res with
              | error e =>
                  intro h
                  cases Option.some.inj h
              | ok m1 =>
                  intro h k
                  have hchild := hvisit child acc m1 (by rw [hcid]; exact hstop) hv k
                  have hrest := ih m1 m h
                  constructor
                  · rintro ⟨c', hc', hdesc⟩
                    rcases List.mem_cons.mp hc' with rfl | hmem
                    · by_cases hex : ∃ c'' ∈ rest, Desc stops c'' k
                      · exact (hrest k).1 hex
                      · rw [(hrest k).2 hex]
                        exact hchild.1 (by rw [hcid]; exact hdesc)
                    · exact (hrest k).1 ⟨c', hmem, hdesc⟩
                  · intro hnex
                    have hnex_rest : ¬∃ c'' ∈ rest, Desc stops c'' k := by
                      rintro ⟨c'', hm, hd⟩
                      exact hnex ⟨c'', List.mem_cons_of_mem _ hm, hd⟩
                    rw [(hrest k).2 hnex_rest]
                    refine hchild.2 ?_
                    rw [hcid]
                    exact fun hd => hnex ⟨c, List.mem_cons_self _ _, hd⟩

theorem putDescendants_char (stops : StrMap Stop) (hWF : KeyedBy stops Stop.stop_id) :
    ∀ (fuel : Nat) (stop : Stop) (acc m : StrMap Stop),
      StrMap.get? stops stop.stop_id = some stop →
      putDescendants fuel (stopsAndChildren stops) stop acc = some (Except.ok m) →
      ∀ k, (Desc stops stop.stop_id k → StrMap.get? m k = StrMap.get? stops k) ∧
           (¬Desc stops stop.stop_id k →
              StrMap.get? m k = StrMap.get? acc k) := by
  intro fuel
  induction fuel with
  | zero =>
      intro stop acc m _ h
      exact Option.noConfusion h
  | succ fuel ih =>
      intro stop acc m hstop h
      rw [putDescendants_succ] at h
      have hfst : ((StrMap.get? (stopsAndChildren stops) stop.stop_id).bind Prod.fst) =
          some stop := by
        rw [sac_bindFst_eq _ _ hWF.1]
        exact hstop
      cases hidx : StrMap.get? (stopsAndChildren stops) stop.stop_id with
      | none =>
          rw [hidx] at hfst
          exact Option.noConfusion hfst
      | some entry =>
          rw [hidx] at h
          have hchar := putChildrenWith_ok_char stops hWF
            (putDescendants fuel (stopsAndChildren stops))
            (fun child a m1 hc hv => ih child a m1 hc hv) entry.2 _ m h
          intro k
          by_cases hex : ∃ c ∈ entry.2, Desc stops c k
          · have hmk : StrMap.get? m k = StrMap.get? stops k := (hchar k).1 hex
            constructor
            · intro _; exact hmk
            · intro hnd
              exfalso
              obtain ⟨c, hcmem, hcdesc⟩ := hex
              have hcch : c ∈ childrenAt (stopsAndChildren stops) stop.stop_id := by
                unfold childrenAt
                rw [hidx]
                simpa using hcmem
              obtain ⟨v, hvmem, hvpar⟩ :=
                (mem_childrenAt_sac stops c stop.stop_id).mp hcch
              have hvget := StrMap.get?_of_mem hWF.1 hvmem
              exact hnd (Desc.trans (Desc.step Desc.refl hvget hvpar) hcdesc)
          · have hmk : StrMap.get? m k =
                StrMap.get? (StrMap.insert acc stop.stop_id stop) k := (hchar k).2 hex
            rw [StrMap.get?_insert] at hmk
            constructor
            · intro hdesc
              rcases Desc.decompose hdesc with rfl | ⟨c, v, hcget, hcpar, hcdesc⟩
              · rw [hmk, if_pos rfl, hstop]
              · exfalso
                have hcch : c ∈ childrenAt (stopsAndChildren stops) stop.stop_id :=
                  (mem_childrenAt_sac stops c stop.stop_id).mpr
                    ⟨v, StrMap.mem_of_get? hcget, hcpar⟩
                have hcmem : c ∈ entry.2 := by
                  unfold childrenAt at hcch
                  rw [hidx] at hcch
                  simpa using hcch
                exact hex ⟨c, hcmem, hcdesc⟩
            · intro hnd
              rw [hmk]
              have hne : ¬(stop.stop_id = k) := fun heq => hnd (heq ▸ Desc.refl)
              rw [if_neg hne]

theorem putChildrenWith_ok_elim
    (idx : StrMap (Option Stop × List String))
    (visit : Stop → StrMap Stop → Option (Except StopCommandError (StrMap Stop)))
    (hindep : ∀ child a a', resKind (visit child a) = resKind (visit child a')) :
    ∀ (L : List String) (acc m : StrMap Stop),
      putChildrenWith idx visit L acc = some (Except.ok m) →
      ∀ c ∈ L, ∃ child, ((StrMap.get? idx c).bind Prod.fst) = some child ∧
        ∀ a, ∃ m', visit child a = some (Except.ok m') := by
  intro L
  induction L with
  | nil => intro acc m _ c hc; cases hc
  | cons c0 rest ih =>
      intro acc m
      rw [putChildrenWith_cons]
      cases hc : (StrMap.get? idx c0).bind Prod.fst with
      | none =>
          intro h
          cases Option.some.inj h
      | some child =>
          show (match visit child acc with
            | none => none
            | some (Except.error e) =>
                some (Except.error (StopCommandError.errorGettingDescendants c0 e))
            | some (Except.ok descendants1) =>
                putChildrenWith idx visit rest descendants1) = some (Except.ok m) → _
          cases hv : visit child acc with
          | none => intro h; cases h
          | some res =>
              cases res with
              | error e =>
                  intro h
                  cases Option.some.inj h
              | ok m1 =>
                  intro h c hcm
                  rcases List.mem_cons.mp hcm with rfl | hmem
                  · refine ⟨child, hc, fun a => ?_⟩
                    refine (resKind_eq_some_none_iff _).mp ?_
                    rw [hindep child a acc, hv]
                    rfl
                  · exact ih m1 m h c hmem

theorem putChildrenWith_ok_intro
    (idx : StrMap (Option Stop × List String))
    (visit : Stop → StrMap Stop → Option (Except StopCommandError (StrMap Stop))) :
    ∀ (L : List String),
      (∀ c ∈ L, ∃ child, ((StrMap.get? idx c).bind Prod.fst) = some child ∧
        ∀ a, ∃ m', visit child a = some (Except.ok m')) →
      ∀ acc, ∃ m, putChildrenWith idx visit L acc = some (Except.ok m) := by
  intro L
  induction L with
  | nil => intro _ acc; exact ⟨acc, putChildrenWith_nil idx visit acc⟩
  | cons c rest ih =>
      intro hL acc
      obtain ⟨child, hchild, hok⟩ := hL c (List.mem_cons_self _ _)
      obtain ⟨m1, hm1⟩ := hok acc
      obtain ⟨m, hm⟩ := ih (fun c' hc' => hL c' (List.mem_cons_of_mem _ hc')) m1
      refine ⟨m, ?_⟩
      rw [putChildrenWith_cons, hchild]
      show (match visit child acc with
        | none => none
        | some (Except.error e) =>
            some (Except.error (StopCommandError.errorGettingDescendants c e))
        | some (Except.ok descendants1) =>
            putChildrenWith idx visit rest descendants1) = some (Except.ok m)
      rw [hm1]
      exact hm

theorem Desc.transfer_fwd {stops stops2 : StrMap Stop} {root k : String}
    (hcover : ∀ k', Desc stops root k' →
      StrMap.get? stops2 k' = StrMap.get? stops k')
    (h : Desc stops root k) : Desc stops2 root k := by
  induction h with
  | refl => exact Desc.refl
  | step hp hc hpar ih =>
      refine Desc.step ih ?_ hpar
      rw [hcover _ (Desc.step hp hc hpar)]
      exact hc

theorem Desc.transfer_bwd {stops stops2 : StrMap Stop} {root k : String}
    (hsub : ∀ k' v, StrMap.get? stops2 k' = some v → StrMap.get? stops k' = some v)
    (h : Desc stops2 root k) : Desc stops root k := by
  induction h with
  | refl => exact Desc.refl
  | step _ hc hpar ih => exact Desc.step ih (hsub _ _ hc) hpar

theorem putDescendants_success_transfer
    (stops stops2 : StrMap Stop)
    (hWF : KeyedBy stops Stop.stop_id) (hWF2 : KeyedBy stops2 Stop.stop_id)
    (root : String)
    (hsub : ∀ k v, StrMap.get? stops2 k = some v → StrMap.get? stops k = some v)
    (hcover : ∀ k, Desc stops root k →
      StrMap.get? stops2 k = StrMap.get? stops k) :
    ∀ (fuel : Nat) (x : String) (sx : Stop),
      Desc stops root x → StrMap.get? stops x = some sx →
      (∃ acc m, putDescendants fuel (stopsAndChildren stops) sx acc =
        some (Except.ok m)) →
      ∀ acc', ∃ m2, putDescendants fuel (stopsAndChildren stops2) sx acc' =
        some (Except.ok m2) := by
  intro fuel
  induction fuel with
  | zero =>
      rintro x sx _ _ ⟨acc, m, h⟩
      exact Option.noConfusion h
  | succ fuel ih =>
      rintro x sx hreach hx ⟨acc, m, h⟩ acc'
      have hxid : sx.stop_id = x := hWF.2 (x, sx) (StrMap.mem_of_get? hx)
      rw [putDescendants_succ] at h
      have hfst1 : ((StrMap.get? (stopsAndChildren stops) sx.stop_id).bind Prod.fst) =
          some sx := by
        rw [sac_bindFst_eq _ _ hWF.1, hxid]
        exact hx
      have hx2 : StrMap.get? stops2 x = some sx := by
        rw [hcover x hreach]
        exact hx
      have hfst2 : ((StrMap.get? (stopsAndChildren stops2) sx.stop_id).bind Prod.fst) =
          some sx := by
        rw [sac_bindFst_eq _ _ hWF2.1, hxid]
        exact hx2
      cases hidx1 : StrMap.get? (stopsAndChildren stops) sx.stop_id with
      | none =>
          rw [hidx1] at hfst1
          exact Option.noConfusion hfst1
      | some entry1 =>
          rw [hidx1] at h
          cases hidx2 : StrMap.get? (stopsAndChildren stops2) sx.stop_id with
          | none =>
              rw [hidx2] at hfst2
              exact Option.noConfusion hfst2
          | some entry2 =>
              rw [putDescendants_succ, hidx2]
              refine putChildrenWith_ok_intro _ _ entry2.2 ?_ _
              intro c hc2
              -- c is a child of x in stops2, hence also in stops
              have hc2' : c ∈ childrenAt (stopsAndChildren stops2) sx.stop_id := by
                unfold childrenAt
                rw [hidx2]
                simpa using hc2
              obtain ⟨v2, hv2, hpar2⟩ :=
                (mem_childrenAt_sac stops2 c sx.stop_id).mp hc2'
              have hv2get : StrMap.get? stops2 c = some v2 :=
                StrMap.get?_of_mem hWF2.1 hv2
              have hv1get : StrMap.get? stops c = some v2 := hsub _ _ hv2get
              have hc1 : c ∈ entry1.2 := by
                have : c ∈ childrenAt (stopsAndChildren stops) sx.stop_id :=
                  (mem_childrenAt_sac stops c sx.stop_id).mpr
                    ⟨v2, StrMap.mem_of_get? hv1get, hpar2⟩
                unfold childrenAt at this
                rw [hidx1] at this
                simpa using this
              -- decompose the successful first run at this child
              have helim := putChildrenWith_ok_elim (stopsAndChildren stops)
                (putDescendants fuel (stopsAndChildren stops))
                (fun child a a' =>
                  putDescendants_resKind_indep (stopsAndChildren stops) fuel child a a')
                entry1.2 _ m h c hc1
              obtain ⟨child1, hchild1, hok1⟩ := helim
              have hchild1' : StrMap.get? stops c = some child1 := by
                rw [← sac_bindFst_eq stops c hWF.1]
                exact hchild1
              have hcv : child1 = v2 := by
                rw [hv1get] at hchild1'
                exact (Option.some.inj hchild1').symm
              subst hcv
              have hreach_c : Desc stops root c :=
                Desc.step hreach hv1get (hxid ▸ hpar2)
              have hIH := ih c child1 hreach_c hv1get
                ⟨[], Classical.choose (hok1 []), Classical.choose_spec (hok1 [])⟩
              refine ⟨child1, ?_, fun a => hIH a⟩
              rw [sac_bindFst_eq _ _ hWF2.1, hv2get]

theorem putChildrenWith_nodup
    (idx : StrMap (Option Stop × List String))
    (visit : Stop → StrMap Stop → Option (Except StopCommandError (StrMap Stop)))
    (hvisit : ∀ child acc m, StrMap.NodupKeys acc →
      visit child acc = some (Except.ok m) → StrMap.NodupKeys m) :
    ∀ (L : List String) (acc m : StrMap Stop), StrMap.NodupKeys acc →
      putChildrenWith idx visit L acc = some (Except.ok m) →
      StrMap.NodupKeys m := by
  intro L
  induction L with
  | nil =>
      intro acc m hacc h
      rw [putChildrenWith_nil] at h
      obtain rfl : acc = m := by
        injection h with h1
        injection h1
      exact hacc
  | cons c rest ih =>
      intro acc m hacc
      rw [putChildrenWith_cons]
      cases hc : (StrMap.get? idx c).bind Prod.fst with
      | none =>
          intro h
          cases Option.some.inj h
      | some child =>
          show (match visit child acc with
            | none => none
            | some (Except.error e) =>
                some (Except.error (StopCommandError.errorGettingDescendants c e))
            | some (Except.ok descendants1) =>
                putChildrenWith idx visit rest descendants1) = some (Except.ok m) → _
          cases hv : visit child acc with
          | none => intro h; cases h
          | some res =>
              cases res with
              | error e =>
                  intro h
                  cases Option.some.inj h
              | ok m1 =>
                  intro h
                  exact ih m1 m (hvisit child acc m1 hacc hv) h

theorem putDescendants_nodup (idx : StrMap (Option Stop × List String)) :
    ∀ (fuel : Nat) (stop : Stop) (acc m : StrMap Stop), StrMap.NodupKeys acc →
      putDescendants fuel idx stop acc = some (Except.ok m) →
      StrMap.NodupKeys m := by
  intro fuel
  induction fuel with
  | zero =>
      intro stop acc m _ h
      exact Option.noConfusion h
  | succ fuel ih =>
      intro stop acc m hacc h
      rw [putDescendants_succ] at h
      cases hidx : StrMap.get? idx stop.stop_id with
      | none =>
          rw [hidx] at h
          obtain rfl : StrMap.insert acc stop.stop_id stop = m := by
            injection h with h1
            injection h1
          exact StrMap.nodupKeys_insert hacc _ _
      | some entry =>
          rw [hidx] at h
          exact putChildrenWith_nodup idx _ (fun child a m1 ha hv => ih child a m1 ha hv)
            entry.2 _ m (StrMap.nodupKeys_insert hacc _ _) h

theorem putDescendants_rank_ok (stops : StrMap Stop) (rank : String → Nat)
    (hWF : KeyedBy stops Stop.stop_id) (hrank : RankedParents stops rank) :
    ∀ (fuel : Nat) (x : String) (sx : Stop),
      StrMap.get? stops x = some sx → rank x < fuel →
      ∀ acc, ∃ m, putDescendants fuel (stopsAndChildren stops) sx acc =
        some (Except.ok m) := by
  intro fuel
  induction fuel with
  | zero =>
      intro x sx _ hlt
      exact absurd hlt (Nat.not_lt_zero _)
  | succ fuel ih =>
      intro x sx hx hlt acc
      have hxid : sx.stop_id = x := hWF.2 (x, sx) (StrMap.mem_of_get? hx)
      rw [putDescendants_succ]
      have hfst : ((StrMap.get? (stopsAndChildren stops) sx.stop_id).bind Prod.fst) =
          some sx := by
        rw [sac_bindFst_eq _ _ hWF.1, hxid]
        exact hx
      cases hidx : StrMap.get? (stopsAndChildren stops) sx.stop_id with
      | none =>
          rw [hidx] at hfst
          exact Option.noConfusion hfst
      | some entry =>
          refine putChildrenWith_ok_intro _ _ entry.2 ?_ _
          intro c hc
          have hcch : c ∈ childrenAt (stopsAndChildren stops) sx.stop_id := by
            unfold childrenAt
            rw [hidx]
            simpa using hc
          obtain ⟨vc, hvmem, hvpar⟩ := (mem_childrenAt_sac stops c sx.stop_id).mp hcch
          have hvget : StrMap.get? stops c = some vc := StrMap.get?_of_mem hWF.1 hvmem
          have hrk := hrank (c, vc) hvmem
          unfold parentRankOk at hrk
          rw [hxid] at hvpar
          simp only [hvpar] at hrk
          have hclt : rank c < fuel :=
            Nat.lt_of_lt_of_le hrk (Nat.le_of_lt_succ hlt)
          refine ⟨vc, ?_, fun a => ih c vc hvget hclt a⟩
          rw [sac_bindFst_eq _ _ hWF.1, hvget]

theorem cyc_putDescendants_none :
    ∀ (fuel : Nat) (acc : StrMap Stop),
      putDescendants fuel (stopsAndChildren cycSchedule.stops.stops) cycStopA acc =
          none ∧
      putDescendants fuel (stopsAndChildren cycSchedule.stops.stops) cycStopB acc =
          none := by
  intro fuel
  induction fuel with
  | zero => intro acc; exact ⟨rfl, rfl⟩
  | succ fuel ih =>
      intro acc
      have hidxA : StrMap.get? (stopsAndChildren cycSchedule.stops.stops) "A" =
          some (some cycStopA, ["B"]) := by decide
      have hidxB : StrMap.get? (stopsAndChildren cycSchedule.stops.stops) "B" =
          some (some cycStopB, ["A"]) := by decide
      have hfstA : ((StrMap.get? (stopsAndChildren cycSchedule.stops.stops) "A").bind
          Prod.fst) = some cycStopA := by rw [hidxA]; rfl
      have hfstB : ((StrMap.get? (stopsAndChildren cycSchedule.stops.stops) "B").bind
          Prod.fst) = some cycStopB := by rw [hidxB]; rfl
      constructor
      · rw [putDescendants_succ]
        rw [show cycStopA.stop_id = "A" from rfl, hidxA]
        show putChildrenWith (stopsAndChildren cycSchedule.stops.stops)
          (putDescendants fuel (stopsAndChildren cycSchedule.stops.stops)) ["B"]
          (StrMap.insert acc "A" cycStopA) = none
        rw [putChildrenWith_cons, hfstB]
        show (match putDescendants fuel (stopsAndChildren cycSchedule.stops.stops)
            cycStopB (StrMap.insert acc "A" cycStopA) with
          | none => none
          | some (Except.error e) =>
              some (Except.error (StopCommandError.errorGettingDescendants "B" e))
          | some (Except.ok descendants1) =>
              putChildrenWith (stopsAndChildren cycSchedule.stops.stops)
                (putDescendants fuel (stopsAndChildren cycSchedule.stops.stops)) []
                descendants1) = none
        rw [(ih _).2]
      · rw [putDescendants_succ]
        rw [show cycStopB.stop_id = "B" from rfl, hidxB]
        show putChildrenWith (stopsAndChildren cycSchedule.stops.stops)
          (putDescendants fuel (stopsAndChildren cycSchedule.stops.stops)) ["A"]
          (StrMap.insert acc "B" cycStopB) = none
        rw [putChildrenWith_cons, hfstA]
        show (match putDescendants fuel (stopsAndChildren cycSchedule.stops.stops)
            cycStopA (StrMap.insert acc "B" cycStopB) with
          | none => none
          | some (Except.error e) =>
              some (Except.error (StopCommandError.errorGettingDescendants "A" e))
          | some (Except.ok descendants1) =>
              putChildrenWith (stopsAndChildren cycSchedule.stops.stops)
                (putDescendants fuel (stopsAndChildren cycSchedule.stops.stops)) []
                descendants1) = none
        rw [(ih _).1]

theorem cyc_cloneDescendants_none (fuel : Nat) :
    cloneDescendants fuel cycSchedule "A" = none := by
  have hred : cloneDescendants fuel cycSchedule "A" =
      (match putDescendants fuel (stopsAndChildren cycSchedule.stops.stops)
          cycStopA [] with
        | none => none
        | some (Except.error e) =>
            some (Except.error (StopCommandError.errorGettingDescendants "A" e))
        | some (Except.ok descendants) => some (Except.ok ⟨descendants⟩)) := rfl
  rw [hred, (cyc_putDescendants_none fuel []).1]

theorem cyc_stop_diverges : stopProjectionDiverges cycSchedule "A" := by
  intro fuel
  have hred : StopsCommandInterpreter.stop fuel cycSchedule "A" =
      (match cloneDescendants fuel cycSchedule "A" with
        | none => none
        | some (Except.error e) => some (Except.error e)
        | some (Except.ok stopsProj) =>
            some (Except.ok (stopProjection cycSchedule stopsProj cycStopA "A"))) := rfl
  rw [hred, cyc_cloneDescendants_none fuel]

/-! ### Characterization of the route projection pipeline -/

theorem routeTrips_get? (schedule : GtfsSchedule) (route_id : String)
    (hWFt : KeyedBy schedule.trips.trips Trip.trip_id) (tid : String) (t : Trip) :
    StrMap.get? (routeTrips schedule route_id) tid = some t ↔
      StrMap.get? schedule.trips.trips tid = some t ∧ t.route_id = route_id := by
  unfold routeTrips
  have hkeys : ((StrMap.vals schedule.trips.trips).map Trip.trip_id).Nodup := by
    rw [KeyedBy.map_idOf_vals hWFt]
    exact hWFt.1
  have hfil : (((StrMap.vals schedule.trips.trips).filter
      (fun trip => trip.route_id == route_id)).map Trip.trip_id).Nodup :=
    List.Nodup.sublist (List.Sublist.map _ (List.filter_sublist _)) hkeys
  have hnodup : ((((StrMap.vals schedule.trips.trips).filter
        (fun trip => trip.route_id == route_id)).map
          (fun trip => (trip.trip_id, trip))).map Prod.fst).Nodup := by
    rw [List.map_map]
    exact hfil
  rw [StrMap.ofList_eq_self hnodup]
  rw [← StrMap.mem_iff_get? hnodup]
  rw [List.mem_map]
  constructor
  · rintro ⟨trip, hmem, heq⟩
    obtain ⟨rfl, rfl⟩ : trip.trip_id = tid ∧ trip = t :=
      ⟨congrArg Prod.fst heq, congrArg Prod.snd heq⟩
    have := List.mem_filter.mp hmem
    refine ⟨(KeyedBy.get?_eq_some_iff hWFt _ _).mpr ⟨this.1, rfl⟩, by simpa using this.2⟩
  · rintro ⟨hget, hrid⟩
    obtain ⟨hvals, hid⟩ := (KeyedBy.get?_eq_some_iff hWFt _ _).mp hget
    exact ⟨t, List.mem_filter.mpr ⟨hvals, by simpa using hrid⟩, by rw [hid]⟩

theorem routeTrips_isSome (schedule : GtfsSchedule) (route_id : String)
    (hWFt : KeyedBy schedule.trips.trips Trip.trip_id) (tid : String) :
    (StrMap.get? (routeTrips schedule route_id) tid).isSome ↔
      ∃ t, StrMap.get? schedule.trips.trips tid = some t ∧
        t.route_id = route_id := by
  rw [Option.isSome_iff_exists]
  constructor
  · rintro ⟨t, ht⟩
    exact ⟨t, (routeTrips_get? schedule route_id hWFt tid t).mp ht⟩
  · rintro ⟨t, ht, hrid⟩
    exact ⟨t, (routeTrips_get? schedule route_id hWFt tid t).mpr ⟨ht, hrid⟩⟩

theorem routeStopTimesByStop_isSome (schedule : GtfsSchedule) (route_id : String)
    (sid : String) :
    (StrMap.get? (routeStopTimesByStop schedule route_id) sid).isSome ↔
      ∃ st ∈ schedule.stop_times.iter, st.stop_id = some sid ∧
        (StrMap.get? (routeTrips schedule route_id) st.trip_id).isSome := by
  unfold routeStopTimesByStop
  rw [groupPairs_get?_isSome]
  simp only [StrMap.get?_nil, Option.isSome_none, Bool.false_eq_true, false_or]
  constructor
  · rintro ⟨p, hp, hpk⟩
    obtain ⟨st, hst, heq⟩ := List.mem_filterMap.mp hp
    obtain ⟨sid', hsid', hsome, hpval⟩ :=
      (Option.bind_optMap_eq_some st.stop_id
        (fun _ => StrMap.get? (routeTrips schedule route_id) st.trip_id)
        (fun sid' => (sid', st)) p).mp heq
    subst hpval
    refine ⟨st, hst, ?_, hsome⟩
    rw [hsid']
    simpa using hpk
  · rintro ⟨st, hst, hsid, hsome⟩
    refine ⟨(sid, st), List.mem_filterMap.mpr ⟨st, hst, ?_⟩, rfl⟩
    exact (Option.bind_optMap_eq_some st.stop_id
      (fun _ => StrMap.get? (routeTrips schedule route_id) st.trip_id)
      (fun sid' => (sid', st)) (sid, st)).mpr ⟨sid, hsid, hsome, rfl⟩

theorem routeStops_get? (schedule : GtfsSchedule) (route_id : String)
    (hWFs : KeyedBy schedule.stops.stops Stop.stop_id) (sid : String) (stop : Stop) :
    StrMap.get? (routeStops schedule route_id) sid = some stop ↔
      StrMap.get? schedule.stops.stops sid = some stop ∧
        (StrMap.get? (routeStopTimesByStop schedule route_id) sid).isSome := by
  unfold routeStops
  simp only [List.filterMap_optMap_isSome]
  have hkeys : ((StrMap.vals schedule.stops.stops).map Stop.stop_id).Nodup := by
    rw [KeyedBy.map_idOf_vals hWFs]
    exact hWFs.1
  have hfil : (((StrMap.vals schedule.stops.stops).filter
      (fun stop => (StrMap.get? (routeStopTimesByStop schedule route_id)
        stop.stop_id).isSome)).map Stop.stop_id).Nodup :=
    List.Nodup.sublist (List.Sublist.map _ (List.filter_sublist _)) hkeys
  have hnodup : ((((StrMap.vals schedule.stops.stops).filter
        (fun stop => (StrMap.get? (routeStopTimesByStop schedule route_id)
          stop.stop_id).isSome)).map
          (fun stop => (stop.stop_id, stop))).map Prod.fst).Nodup := by
    rw [List.map_map]
    exact hfil
  rw [StrMap.ofList_eq_self hnodup]
  rw [← StrMap.mem_iff_get? hnodup]
  rw [List.mem_map]
  constructor
  · rintro ⟨stop', hmem, heq⟩
    obtain ⟨rfl, rfl⟩ : stop'.stop_id = sid ∧ stop' = stop :=
      ⟨congrArg Prod.fst heq, congrArg Prod.snd heq⟩
    have := List.mem_filter.mp hmem
    refine ⟨(KeyedBy.get?_eq_some_iff hWFs _ _).mpr ⟨this.1, rfl⟩, by simpa using this.2⟩
  · rintro ⟨hget, hsome⟩
    obtain ⟨hvals, hid⟩ := (KeyedBy.get?_eq_some_iff hWFs _ _).mp hget
    refine ⟨stop, List.mem_filter.mpr ⟨hvals, ?_⟩, by rw [hid]⟩
    rw [hid]
    simpa using hsome

theorem routeStopTimesByStop_nodupKeys (schedule : GtfsSchedule) (route_id : String) :
    StrMap.NodupKeys (routeStopTimesByStop schedule route_id) :=
  groupPairs_nodupKeys _ [] StrMap.nodupKeys_nil

theorem route_stop_times_ofList_eq (schedule : GtfsSchedule) (route_id : String) :
    StrMap.ofList (routeStopTimesByStop schedule route_id) =
      routeStopTimesByStop schedule route_id :=
  StrMap.ofList_eq_self (routeStopTimesByStop_nodupKeys schedule route_id)

theorem routeStopTimesByStop_iter_mem (schedule : GtfsSchedule) (route_id : String)
    (st : StopTime) :
    st ∈ (StrMap.vals (routeStopTimesByStop schedule route_id)).flatten →
      st ∈ schedule.stop_times.iter ∧
        (StrMap.get? (routeTrips schedule route_id) st.trip_id).isSome := by
  intro h
  unfold routeStopTimesByStop at h
  have hperm := flatten_vals_groupPairs_nil
    (schedule.stop_times.iter.filterMap (fun stop_time =>
      stop_time.stop_id.bind (fun sid =>
        (StrMap.get? (routeTrips schedule route_id) stop_time.trip_id).map
          (fun _ => (sid, stop_time)))))
  have hmem := hperm.mem_iff.mp h
  obtain ⟨p, hp, rfl⟩ := List.mem_map.mp hmem
  obtain ⟨st', hst', heq⟩ := List.mem_filterMap.mp hp
  obtain ⟨sid', _, hsome, hpval⟩ :=
    (Option.bind_optMap_eq_some st'.stop_id
      (fun _ => StrMap.get? (routeTrips schedule route_id) st'.trip_id)
      (fun sid' => (sid', st')) p).mp heq
  subst hpval
  exact ⟨hst', hsome⟩

/-! ### Characterization of the stop projection pipeline -/

theorem stopStopTimes_isSome (schedule : GtfsSchedule) (stopsProj : Stops)
    (tid : String) :
    (StrMap.get? (stopStopTimes schedule stopsProj) tid).isSome ↔
      ∃ st ∈ schedule.stop_times.iter, st.trip_id = tid ∧
        ∃ sid, st.stop_id = some sid ∧
          (StrMap.get? stopsProj.stops sid).isSome := by
  unfold stopStopTimes
  rw [groupPairs_get?_isSome]
  simp only [StrMap.get?_nil, Option.isSome_none, Bool.false_eq_true, false_or]
  constructor
  · rintro ⟨p, hp, hpk⟩
    obtain ⟨st, hst, heq⟩ := List.mem_filterMap.mp hp
    obtain ⟨sid', hsid', hsome, hpval⟩ :=
      (Option.bind_optMap_eq_some st.stop_id
        (fun sid => StrMap.get? stopsProj.stops sid)
        (fun _ => (st.trip_id, st)) p).mp heq
    subst hpval
    exact ⟨st, hst, by simpa using hpk, sid', hsid', hsome⟩
  · rintro ⟨st, hst, htid, sid, hsid, hsome⟩
    refine ⟨(st.trip_id, st), List.mem_filterMap.mpr ⟨st, hst, ?_⟩, htid⟩
    exact (Option.bind_optMap_eq_some st.stop_id
      (fun sid => StrMap.get? stopsProj.stops sid)
      (fun _ => (st.trip_id, st)) (st.trip_id, st)).mpr ⟨sid, hsid, hsome, rfl⟩

theorem stopStopTimes_flatten_mem (schedule : GtfsSchedule) (stopsProj : Stops)
    (st : StopTime) :
    st ∈ (StrMap.vals (stopStopTimes schedule stopsProj)).flatten →
      st ∈ schedule.stop_times.iter ∧
        (StrMap.get? (stopStopTimes schedule stopsProj) st.trip_id).isSome := by
  intro h
  have hperm := flatten_vals_groupPairs_nil
    (schedule.stop_times.iter.filterMap (fun stop_time =>
      stop_time.stop_id.bind (fun sid =>
        (StrMap.get? stopsProj.stops sid).map
          (fun _ => (stop_time.trip_id, stop_time)))))
  unfold stopStopTimes at h
  have hmem := hperm.mem_iff.mp h
  obtain ⟨p, hp, rfl⟩ := List.mem_map.mp hmem
  obtain ⟨st', hst', heq⟩ := List.mem_filterMap.mp hp
  obtain ⟨sid', hsid', hsome, hpval⟩ :=
    (Option.bind_optMap_eq_some st'.stop_id
      (fun sid => StrMap.get? stopsProj.stops sid)
      (fun _ => (st'.trip_id, st')) p).mp heq
  subst hpval
  refine ⟨hst', ?_⟩
  unfold stopStopTimes
  rw [groupPairs_get?_isSome]
  refine Or.inr ⟨(st'.trip_id, st'), List.mem_filterMap.mpr ⟨st', hst', heq⟩, rfl⟩

theorem stopTripsByRoute_isSome (schedule : GtfsSchedule) (stopsProj : Stops)
    (rid : String) :
    (StrMap.get? (stopTripsByRoute schedule stopsProj) rid).isSome ↔
      ∃ t ∈ StrMap.vals schedule.trips.trips, t.route_id = rid ∧
        (StrMap.get? (stopStopTimes schedule stopsProj) t.trip_id).isSome := by
  unfold stopTripsByRoute
  rw [groupPairs_get?_isSome]
  simp only [StrMap.get?_nil, Option.isSome_none, Bool.false_eq_true, false_or]
  constructor
  · rintro ⟨p, hp, hpk⟩
    obtain ⟨t, ht, heq⟩ := List.mem_filterMap.mp hp
    cases hG : StrMap.get? (stopStopTimes schedule stopsProj) t.trip_id with
    | none => rw [hG] at heq; cases heq
    | some v =>
        rw [hG] at heq
        obtain rfl : (t.route_id, t) = p := by
          simpa using heq
        exact ⟨t, ht, by simpa using hpk, by simp [hG]⟩
  · rintro ⟨t, ht, hrid, hsome⟩
    obtain ⟨v, hv⟩ := Option.isSome_iff_exists.mp hsome
    refine ⟨(t.route_id, t), List.mem_filterMap.mpr ⟨t, ht, ?_⟩, hrid⟩
    rw [hv]
    rfl

theorem stopTrips_flatten_eq (schedule : GtfsSchedule) (stopsProj : Stops) :
    (StrMap.vals (stopTripsByRoute schedule stopsProj)).flatten.Perm
      ((StrMap.vals schedule.trips.trips).filter (fun trip =>
        (StrMap.get? (stopStopTimes schedule stopsProj) trip.trip_id).isSome)) := by
  unfold stopTripsByRoute
  refine (flatten_vals_groupPairs_nil _).trans ?_
  rw [show ((StrMap.vals schedule.trips.trips).filterMap (fun trip =>
      (StrMap.get? (stopStopTimes schedule stopsProj) trip.trip_id).map
        (fun _ => (trip.route_id, trip)))) =
    (((StrMap.vals schedule.trips.trips).filter (fun trip =>
      (StrMap.get? (stopStopTimes schedule stopsProj) trip.trip_id).isSome)).map
        (fun trip => (trip.route_id, trip))) from by
    simp only [List.filterMap_optMap_isSome]]
  rw [List.map_map]
  rw [show (Prod.snd ∘ fun trip : Trip => (trip.route_id, trip)) = id from rfl]
  rw [List.map_id]

theorem stopTrips_isSome (schedule : GtfsSchedule) (stopsProj : Stops)
    (tid : String) :
    (StrMap.get? (stopTrips schedule stopsProj) tid).isSome ↔
      ∃ t ∈ StrMap.vals schedule.trips.trips, t.trip_id = tid ∧
        (StrMap.get? (stopStopTimes schedule stopsProj) t.trip_id).isSome := by
  unfold stopTrips
  rw [StrMap.ofList_get?_isSome]
  rw [List.map_map]
  rw [show (Prod.fst ∘ fun trip : Trip => (trip.trip_id, trip)) = Trip.trip_id
    from rfl]
  rw [List.mem_map]
  constructor
  · rintro ⟨t, ht, rfl⟩
    have := (stopTrips_flatten_eq schedule stopsProj).mem_iff.mp ht
    have hf := List.mem_filter.mp this
    exact ⟨t, hf.1, rfl, by simpa using hf.2⟩
  · rintro ⟨t, ht, rfl, hsome⟩
    refine ⟨t, ?_, rfl⟩
    refine (stopTrips_flatten_eq schedule stopsProj).mem_iff.mpr ?_
    exact List.mem_filter.mpr ⟨ht, by simpa using hsome⟩

theorem stopTrips_get? (schedule : GtfsSchedule) (stopsProj : Stops)
    (hWFt : KeyedBy schedule.trips.trips Trip.trip_id) (tid : String) (t : Trip) :
    StrMap.get? (stopTrips schedule stopsProj) tid = some t ↔
      StrMap.get? schedule.trips.trips tid = some t ∧
        (StrMap.get? (stopStopTimes schedule stopsProj) tid).isSome := by
  have hkeys : ((StrMap.vals schedule.trips.trips).map Trip.trip_id).Nodup := by
    rw [KeyedBy.map_idOf_vals hWFt]
    exact hWFt.1
  have hfilnodup : (((StrMap.vals schedule.trips.trips).filter (fun trip =>
      (StrMap.get? (stopStopTimes schedule stopsProj) trip.trip_id).isSome)).map
        Trip.trip_id).Nodup :=
    List.Nodup.sublist (List.Sublist.map _ (List.filter_sublist _)) hkeys
  have hpermids := (stopTrips_flatten_eq schedule stopsProj).map Trip.trip_id
  have hflatnodup :
      (((StrMap.vals (stopTripsByRoute schedule stopsProj)).flatten).map
        Trip.trip_id).Nodup :=
    hpermids.nodup_iff.mpr hfilnodup
  have hnodup : (((((StrMap.vals (stopTripsByRoute schedule stopsProj)).flatten)).map
      (fun trip => (trip.trip_id, trip))).map Prod.fst).Nodup := by
    rw [List.map_map]
    exact hflatnodup
  unfold stopTrips
  rw [StrMap.ofList_eq_self hnodup]
  rw [← StrMap.mem_iff_get? hnodup]
  rw [List.mem_map]
  constructor
  · rintro ⟨trip, hmem, heq⟩
    obtain ⟨rfl, rfl⟩ : trip.trip_id = tid ∧ trip = t :=
      ⟨congrArg Prod.fst heq, congrArg Prod.snd heq⟩
    have := (stopTrips_flatten_eq schedule stopsProj).mem_iff.mp hmem
    have hf := List.mem_filter.mp this
    exact ⟨(KeyedBy.get?_eq_some_iff hWFt _ _).mpr ⟨hf.1, rfl⟩, by simpa using hf.2⟩
  · rintro ⟨hget, hsome⟩
    obtain ⟨hvals, hid⟩ := (KeyedBy.get?_eq_some_iff hWFt _ _).mp hget
    refine ⟨t, ?_, by rw [hid]⟩
    refine (stopTrips_flatten_eq schedule stopsProj).mem_iff.mpr ?_
    exact List.mem_filter.mpr ⟨hvals, by rw [hid]; simpa using hsome⟩

theorem stopRoutes_get? (schedule : GtfsSchedule) (stopsProj : Stops)
    (hWFr : KeyedBy schedule.routes.routes Route.route_id) (rid : String)
    (r : Route) :
    StrMap.get? (stopRoutes schedule stopsProj) rid = some r ↔
      StrMap.get? schedule.routes.routes rid = some r ∧
        (StrMap.get? (stopTripsByRoute schedule stopsProj) rid).isSome := by
  unfold stopRoutes
  simp only [List.filterMap_optMap_isSome]
  have hkeys : ((StrMap.vals schedule.routes.routes).map Route.route_id).Nodup := by
    rw [KeyedBy.map_idOf_vals hWFr]
    exact hWFr.1
  have hfil : (((StrMap.vals schedule.routes.routes).filter
      (fun route => (StrMap.get? (stopTripsByRoute schedule stopsProj)
        route.route_id).isSome)).map Route.route_id).Nodup :=
    List.Nodup.sublist (List.Sublist.map _ (List.filter_sublist _)) hkeys
  have hnodup : ((((StrMap.vals schedule.routes.routes).filter
        (fun route => (StrMap.get? (stopTripsByRoute schedule stopsProj)
          route.route_id).isSome)).map
          (fun route => (route.route_id, route))).map Prod.fst).Nodup := by
    rw [List.map_map]
    exact hfil
  rw [StrMap.ofList_eq_self hnodup]
  rw [← StrMap.mem_iff_get? hnodup]
  rw [List.mem_map]
  constructor
  · rintro ⟨route, hmem, heq⟩
    obtain ⟨rfl, rfl⟩ : route.route_id = rid ∧ route = r :=
      ⟨congrArg Prod.fst heq, congrArg Prod.snd heq⟩
    have := List.mem_filter.mp hmem
    refine ⟨(KeyedBy.get?_eq_some_iff hWFr _ _).mpr ⟨this.1, rfl⟩, by simpa using this.2⟩
  · rintro ⟨hget, hsome⟩
    obtain ⟨hvals, hid⟩ := (KeyedBy.get?_eq_some_iff hWFr _ _).mp hget
    refine ⟨r, List.mem_filter.mpr ⟨hvals, ?_⟩, by rw [hid]⟩
    rw [hid]
    simpa using hsome

/-! ### Empty-result lemmas and top-level reduction equations -/

theorem routeTrips_empty (schedule : GtfsSchedule) (route_id : String)
    (h : ∀ t ∈ StrMap.vals schedule.trips.trips, t.route_id ≠ route_id) :
    routeTrips schedule route_id = [] := by
  unfold routeTrips
  have hfil : (StrMap.vals schedule.trips.trips).filter
      (fun trip => trip.route_id == route_id) = [] := by
    rw [List.filter_eq_nil]
    intro t ht
    simpa using h t ht
  rw [hfil]
  rfl

theorem routeStopTimesByStop_empty (schedule : GtfsSchedule) (route_id : String)
    (h : routeTrips schedule route_id = []) :
    routeStopTimesByStop schedule route_id = [] := by
  unfold routeStopTimesByStop
  rw [h]
  have : (schedule.stop_times.iter.filterMap (fun stop_time =>
      stop_time.stop_id.bind (fun sid =>
        (StrMap.get? ([] : StrMap Trip) stop_time.trip_id).map
          (fun _ => (sid, stop_time))))) = [] := by
    rw [List.filterMap_eq_nil]
    intro st _
    cases st.stop_id <;> rfl
  rw [this]
  rfl

theorem routeStops_empty (schedule : GtfsSchedule) (route_id : String)
    (h : routeStopTimesByStop schedule route_id = []) :
    routeStops schedule route_id = [] := by
  unfold routeStops
  rw [h]
  have : ((StrMap.vals schedule.stops.stops).filterMap (fun stop =>
      (StrMap.get? ([] : StrMap (List StopTime)) stop.stop_id).map
        (fun _ => (stop.stop_id, stop)))) = [] := by
    rw [List.filterMap_eq_nil]
    intro stop _
    rfl
  rw [this]
  rfl

theorem stopStopTimes_empty (schedule : GtfsSchedule) (stopsProj : Stops)
    (h : ∀ st ∈ schedule.stop_times.iter, ∀ sid, st.stop_id = some sid →
      StrMap.get? stopsProj.stops sid = none) :
    stopStopTimes schedule stopsProj = [] := by
  unfold stopStopTimes
  have hsel : (schedule.stop_times.iter.filterMap (fun stop_time =>
      stop_time.stop_id.bind (fun sid =>
        (StrMap.get? stopsProj.stops sid).map
          (fun _ => (stop_time.trip_id, stop_time))))) = [] := by
    rw [List.filterMap_eq_nil]
    intro st hst
    cases hsid : st.stop_id with
    | none => rfl
    | some sid =>
        rw [Option.some_bind, h st hst sid hsid]
        rfl
  rw [hsel]
  rfl

theorem stopTripsByRoute_empty (schedule : GtfsSchedule) (stopsProj : Stops)
    (h : stopStopTimes schedule stopsProj = []) :
    stopTripsByRoute schedule stopsProj = [] := by
  unfold stopTripsByRoute
  rw [h]
  have : ((StrMap.vals schedule.trips.trips).filterMap (fun trip =>
      (StrMap.get? ([] : StrMap (List StopTime)) trip.trip_id).map
        (fun _ => (trip.route_id, trip)))) = [] := by
    rw [List.filterMap_eq_nil]
    intro trip _
    rfl
  rw [this]
  rfl

theorem stopRoutes_empty (schedule : GtfsSchedule) (stopsProj : Stops)
    (h : stopTripsByRoute schedule stopsProj = []) :
    stopRoutes schedule stopsProj = [] := by
  unfold stopRoutes
  rw [h]
  have : ((StrMap.vals schedule.routes.routes).filterMap (fun route =>
      (StrMap.get? ([] : StrMap (List Trip)) route.route_id).map
        (fun _ => (route.route_id, route)))) = [] := by
    rw [List.filterMap_eq_nil]
    intro route _
    rfl
  rw [this]
  rfl

theorem stopTrips_empty (schedule : GtfsSchedule) (stopsProj : Stops)
    (h : stopTripsByRoute schedule stopsProj = []) :
    stopTrips schedule stopsProj = [] := by
  unfold stopTrips
  rw [h]
  rfl

theorem cloneDescendants_eq (fuel : Nat) (schedule : GtfsSchedule)
    (stop_id : String) :
    cloneDescendants fuel schedule stop_id =
      match (StrMap.get? (stopsAndChildren schedule.stops.stops) stop_id).bind
          Prod.fst with
      | none => some (Except.error (StopCommandError.noSuchStop stop_id))
      | some root =>
          match putDescendants fuel (stopsAndChildren schedule.stops.stops)
              root [] with
          | none => none
          | some (Except.error e) =>
              some (Except.error
                (StopCommandError.errorGettingDescendants stop_id e))
          | some (Except.ok descendants) => some (Except.ok ⟨descendants⟩) := rfl

theorem StopsCommandInterpreter.stop_eq (fuel : Nat) (schedule : GtfsSchedule)
    (stop_id : String) :
    StopsCommandInterpreter.stop fuel schedule stop_id =
      match StrMap.get? schedule.stops.stops stop_id with
      | none => some (Except.error (StopCommandError.noSuchStop stop_id))
      | some raw_stop =>
          match cloneDescendants fuel schedule stop_id with
          | none => none
          | some (Except.error e) => some (Except.error e)
          | some (Except.ok stopsProj) =>
              some (Except.ok (stopProjection schedule stopsProj raw_stop stop_id))
    := rfl

theorem cloneDescendants_error_iff (fuel : Nat) (schedule : GtfsSchedule)
    (stop_id : String) (e : StopCommandError) :
    cloneDescendants fuel schedule stop_id = some (Except.error e) →
      e = StopCommandError.noSuchStop stop_id ∧
        StrMap.get? schedule.stops.stops stop_id = none := by
  rw [cloneDescendants_eq]
  cases hfst : (StrMap.get? (stopsAndChildren schedule.stops.stops) stop_id).bind
      Prod.fst with
  | none =>
      show some (Except.error (StopCommandError.noSuchStop stop_id)) =
        some (Except.error e) → _
      intro h
      refine ⟨(Except.error.inj (Option.some.inj h)).symm, ?_⟩
      rw [StrMap.get?_eq_none_iff]
      intro hk
      have := sac_bindFst_isSome schedule.stops.stops stop_id hk
      rw [hfst] at this
      cases this
  | some root =>
      show (match putDescendants fuel (stopsAndChildren schedule.stops.stops)
          root [] with
        | none => none
        | some (Except.error e1) =>
            some (Except.error (StopCommandError.errorGettingDescendants stop_id e1))
        | some (Except.ok descendants) => some (Except.ok (Stops.mk descendants))) =
          some (Except.error e) → _
      cases hput : putDescendants fuel (stopsAndChildren schedule.stops.stops)
          root [] with
      | none => intro h; cases h
      | some res =>
          cases res with
          | error e1 =>
              exact absurd hput (putDescendants_no_error schedule.stops.stops
                fuel root [] e1)
          | ok m => exact fun h => Except.noConfusion (Option.some.inj h)

theorem stop_absent_error (fuel : Nat) (schedule : GtfsSchedule) (stop_id : String)
    (h : StrMap.get? schedule.stops.stops stop_id = none) :
    StopsCommandInterpreter.stop fuel schedule stop_id =
      some (Except.error (StopCommandError.noSuchStop stop_id)) := by
  rw [StopsCommandInterpreter.stop_eq, h]

theorem stop_present_no_error (fuel : Nat) (schedule : GtfsSchedule)
    (stop_id : String) (raw : Stop)
    (h : StrMap.get? schedule.stops.stops stop_id = some raw) :
    ∀ e, StopsCommandInterpreter.stop fuel schedule stop_id ≠
      some (Except.error e) := by
  intro e
  rw [StopsCommandInterpreter.stop_eq, h]
  cases hclone : cloneDescendants fuel schedule stop_id with
  | none => simp
  | some res =>
      cases res with
      | error e1 =>
          exfalso
          have := (cloneDescendants_error_iff fuel schedule stop_id e1 hclone).2
          rw [h] at this
          cases this
      | ok stopsProj => simp

/-! ### Claim theorems -/

/-- Claim C1: for every schedule (with its collections keyed by their own
ids, as documented) and every route id `r` present in its routes,
`RoutesCommandInterpreter::route` succeeds, and the result's routes
collection is exactly `{r ↦ S.routes[r]}`, its trips are exactly the trips
of `S` with `route_id = r`, and its stops are exactly the stops of `S`
referenced by some stop-time of one of those trips. -/
theorem c1_project_by_route_exact (node : GtfsNode) (r : String) (route : Route)
    (hWFt : KeyedBy node.gtfs.trips.trips Trip.trip_id)
    (hWFs : KeyedBy node.gtfs.stops.stops Stop.stop_id)
    (hroute : StrMap.get? node.gtfs.routes.routes r = some route) :
    ∃ child, RoutesCommandInterpreter.route node r = Except.ok child ∧
      (∀ k, StrMap.get? child.gtfs.routes.routes k =
        if r = k then some route else none) ∧
      (∀ tid t, StrMap.get? child.gtfs.trips.trips tid = some t ↔
        StrMap.get? node.gtfs.trips.trips tid = some t ∧ t.route_id = r) ∧
      (∀ sid stop, StrMap.get? child.gtfs.stops.stops sid = some stop ↔
        StrMap.get? node.gtfs.stops.stops sid = some stop ∧
          ∃ st ∈ node.gtfs.stop_times.iter, st.stop_id = some sid ∧
            ∃ t, StrMap.get? node.gtfs.trips.trips st.trip_id = some t ∧
              t.route_id = r) := by
  refine ⟨GtfsNode.mk
    ⟨⟨routeStops node.gtfs r⟩, ⟨[(r, route)]⟩, ⟨routeTrips node.gtfs r⟩,
      ⟨StrMap.ofList (routeStopTimesByStop node.gtfs r)⟩⟩
    (some node) r (some route.displayName), ?_, ?_, ?_, ?_⟩
  · unfold RoutesCommandInterpreter.route
    rw [hroute]
  · intro k
    rfl
  · intro tid t
    exact routeTrips_get? node.gtfs r hWFt tid t
  · intro sid stop
    show StrMap.get? (routeStops node.gtfs r) sid = some stop ↔ _
    rw [routeStops_get? node.gtfs r hWFs sid stop]
    rw [routeStopTimesByStop_isSome]
    constructor
    · rintro ⟨hg, st, hst, hsid, hsome⟩
      obtain ⟨t, ht, hrid⟩ := (routeTrips_isSome node.gtfs r hWFt st.trip_id).mp hsome
      exact ⟨hg, st, hst, hsid, t, ht, hrid⟩
    · rintro ⟨hg, st, hst, hsid, t, ht, hrid⟩
      exact ⟨hg, st, hst, hsid,
        (routeTrips_isSome node.gtfs r hWFt st.trip_id).mpr ⟨t, ht, hrid⟩⟩

/-- Witness for C1 at `sampleSchedule`, route `"R1"`: the projected stops
collection contains exactly the stop `"A1"` (touched by trip `"T1"`). -/
theorem c1_witness :
    StrMap.get? sampleNode.gtfs.routes.routes "R1" = some routeR1 ∧
    ∃ child, RoutesCommandInterpreter.route sampleNode "R1" = Except.ok child ∧
      (∀ k, StrMap.get? child.gtfs.routes.routes k =
        if "R1" = k then some routeR1 else none) ∧
      (∀ tid t, StrMap.get? child.gtfs.trips.trips tid = some t ↔
        StrMap.get? sampleNode.gtfs.trips.trips tid = some t ∧ t.route_id = "R1") ∧
      (∀ sid stop, StrMap.get? child.gtfs.stops.stops sid = some stop ↔
        StrMap.get? sampleNode.gtfs.stops.stops sid = some stop ∧
          ∃ st ∈ sampleNode.gtfs.stop_times.iter, st.stop_id = some sid ∧
            ∃ t, StrMap.get? sampleNode.gtfs.trips.trips st.trip_id = some t ∧
              t.route_id = "R1") :=
  ⟨by decide,
   c1_project_by_route_exact sampleNode "R1" routeR1 (by decide) (by decide)
     (by decide)⟩

/-- Claim C3 (code bug): the stop-times collection of the schedule
returned by project-by-route is keyed by stop id, not regrouped by trip
id, contradicting the claim, the spec, and the `StopTimes` doc comment.
At `sched3` (trip `"T"` of route `"R"` stopping at `"A"`), the result has
no entry under the trip id `"T"` and holds the entry under the stop id
`"A"`. -/
theorem c3_stop_times_keyed_by_stop_id :
    (RoutesCommandInterpreter.route node3 "R").toOption.map (fun n =>
      (StrMap.get? n.gtfs.stop_times.stop_times "T",
       StrMap.get? n.gtfs.stop_times.stop_times "A")) =
      some (none, some [stT3]) := by decide

/-- Claim C6 (code bug): at a schedule-root node, the bare command `stops`
is a `StopsSubcommandRequired` error, but the bare commands `routes` and
`trips` panic (the source slices `&rest[1..]` with `rest` empty) instead
of reporting the error the claim and spec require. -/
theorem c6_bare_collection_segments (fuel : Nat) (node : GtfsNode) :
    GtfsNode.interpret fuel node "stops" =
      some (CmdRes.err GTFSCommandInterpreterError.stopsSubcommandRequired) ∧
    GtfsNode.interpret fuel node "routes" = some CmdRes.panicked ∧
    GtfsNode.interpret fuel node "trips" = some CmdRes.panicked := by
  refine ⟨?_, ?_, ?_⟩
  · simp [GtfsNode.interpret, show splitFirst "stops" = ("stops", "") from rfl,
      show tryTail "" = none from rfl]
  · simp [GtfsNode.interpret, show splitFirst "routes" = ("routes", "") from rfl]
  · simp [GtfsNode.interpret, show splitFirst "trips" = ("trips", "") from rfl]

/-- Claim C9: at the routes and stops collection dispatchers the literal
commands `list` and `info` are matched before any entity-id lookup, so a
command whose first segment is one of them always performs the literal
action, regardless of the schedule's contents. -/
theorem c9_literal_commands_take_precedence (fuel : Nat) (node : GtfsNode)
    (schedule : GtfsSchedule) (command : String) :
    ((splitFirst command).1 = "list" →
      RoutesCommandInterpreter.interpret fuel node command =
        some (CmdRes.ok (Output.routesList
          (RoutesCommandInterpreter.listLines node.gtfs)))) ∧
    ((splitFirst command).1 = "info" →
      RoutesCommandInterpreter.interpret fuel node command =
        some (CmdRes.ok (Output.routesInfo node.gtfs.routes.routes.length))) ∧
    ((splitFirst command).1 = "list" →
      StopsCommandInterpreter.interpret fuel schedule command =
        some (CmdRes.ok (Output.stopsList
          (StopsCommandInterpreter.listLines schedule)))) ∧
    ((splitFirst command).1 = "info" →
      StopsCommandInterpreter.interpret fuel schedule command =
        some (CmdRes.ok (Output.stopsInfo schedule.stops.stops.length))) := by
  refine ⟨?_, ?_, ?_, ?_⟩ <;> intro h
  · simp [RoutesCommandInterpreter.interpret, h]
  · simp [RoutesCommandInterpreter.interpret, h]
  · simp [StopsCommandInterpreter.interpret, h]
  · simp [StopsCommandInterpreter.interpret, h]

/-- Witness for C9 at `trickSchedule`, which contains a route literally
named `"list"` and a stop literally named `"info"`: the literal actions
still win. -/
theorem c9_witness :
    StrMap.get? trickNode.gtfs.routes.routes "list" = some listRoute ∧
    StrMap.get? trickSchedule.stops.stops "info" = some infoStop ∧
    RoutesCommandInterpreter.interpret 1 trickNode "list" =
      some (CmdRes.ok (Output.routesList
        (RoutesCommandInterpreter.listLines trickNode.gtfs))) ∧
    StopsCommandInterpreter.interpret 1 trickSchedule "info" =
      some (CmdRes.ok (Output.stopsInfo trickSchedule.stops.stops.length)) :=
  ⟨by decide, by decide,
   (c9_literal_commands_take_precedence 1 trickNode trickSchedule "list").1 rfl,
   (c9_literal_commands_take_precedence 1 trickNode trickSchedule "info").2.2.2 rfl⟩

/-- Claim C10: the `NoSuchStop` failure branch for a child id inside the
descendant traversal is unreachable: for every input schedule the
traversal started by `clone_descendants` never returns an error, and
`clone_descendants` itself errors only with `NoSuchStop` on the selector
itself (when the selector is absent from the stop table). -/
theorem c10_child_lookup_never_fails :
    (∀ (schedule : GtfsSchedule) (fuel : Nat) (stop : Stop) (acc : StrMap Stop)
        (e : StopCommandError),
      putDescendants fuel (stopsAndChildren schedule.stops.stops) stop acc ≠
        some (Except.error e)) ∧
    (∀ (schedule : GtfsSchedule) (stop_id : String) (fuel : Nat)
        (e : StopCommandError),
      cloneDescendants fuel schedule stop_id = some (Except.error e) →
        e = StopCommandError.noSuchStop stop_id ∧
          StrMap.get? schedule.stops.stops stop_id = none) :=
  ⟨fun schedule fuel stop acc e =>
    putDescendants_no_error schedule.stops.stops fuel stop acc e,
   fun schedule stop_id fuel e h =>
    cloneDescendants_error_iff fuel schedule stop_id e h⟩

/-- Witness for C10: at `sampleSchedule` the traversal from `"A"` returns
no error, and selecting the absent id `"Z"` yields exactly the selector
`NoSuchStop` error. -/
theorem c10_witness :
    (putDescendants 2 (stopsAndChildren sampleSchedule.stops.stops) stopA [] ≠
      some (Except.error (StopCommandError.noSuchStop "A"))) ∧
    (StopCommandError.noSuchStop "Z" = StopCommandError.noSuchStop "Z" ∧
      StrMap.get? sampleSchedule.stops.stops "Z" = none) :=
  ⟨c10_child_lookup_never_fails.1 sampleSchedule 2 stopA []
      (StopCommandError.noSuchStop "A"),
   c10_child_lookup_never_fails.2 sampleSchedule "Z" 1
      (StopCommandError.noSuchStop "Z") rfl⟩

theorem stop_ok_elim (fuel : Nat) (schedule : GtfsSchedule) (s : String)
    (node : GtfsNode)
    (h : StopsCommandInterpreter.stop fuel schedule s = some (Except.ok node)) :
    ∃ raw root m,
      StrMap.get? schedule.stops.stops s = some raw ∧
      ((StrMap.get? (stopsAndChildren schedule.stops.stops) s).bind Prod.fst) =
        some root ∧
      putDescendants fuel (stopsAndChildren schedule.stops.stops) root [] =
        some (Except.ok m) ∧
      node = stopProjection schedule ⟨m⟩ raw s := by
  revert h
  rw [StopsCommandInterpreter.stop_eq]
  cases hs : StrMap.get? schedule.stops.stops s with
  | none =>
      show some (Except.error (StopCommandError.noSuchStop s)) =
        some (Except.ok node) → _
      intro h
      exact Except.noConfusion (Option.some.inj h)
  | some raw =>
      show (match cloneDescendants fuel schedule s with
        | none => none
        | some (Except.error e) => some (Except.error e)
        | some (Except.ok stopsProj) =>
            some (Except.ok (stopProjection schedule stopsProj raw s))) =
          some (Except.ok node) → _
      rw [cloneDescendants_eq]
      cases hfst : (StrMap.get? (stopsAndChildren schedule.stops.stops) s).bind
          Prod.fst with
      | none =>
          show some (Except.error (StopCommandError.noSuchStop s)) =
            some (Except.ok node) → _
          intro h
          exact Except.noConfusion (Option.some.inj h)
      | some root =>
          show (match (match putDescendants fuel
              (stopsAndChildren schedule.stops.stops) root [] with
            | none => none
            | some (Except.error e) => some (Except.error
                (StopCommandError.errorGettingDescendants s e))
            | some (Except.ok descendants) =>
                some (Except.ok (Stops.mk descendants))) with
            | none => none
            | some (Except.error e) => some (Except.error e)
            | some (Except.ok stopsProj) =>
                some (Except.ok (stopProjection schedule stopsProj raw s))) =
              some (Except.ok node) → _
          cases hput : putDescendants fuel (stopsAndChildren schedule.stops.stops)
              root [] with
          | none =>
              show (none : Option (Except StopCommandError GtfsNode)) =
                some (Except.ok node) → _
              intro h
              exact Option.noConfusion h
          | some res =>
              cases res with
              | error e =>
                  show some (Except.error
                      (StopCommandError.errorGettingDescendants s e)) =
                    some (Except.ok node) → _
                  intro h
                  exact Except.noConfusion (Option.some.inj h)
              | ok m =>
                  show some (Except.ok (stopProjection schedule (Stops.mk m) raw s)) =
                    some (Except.ok node) → _
                  intro h
                  refine ⟨raw, root, m, rfl, rfl, hput, ?_⟩
                  exact (Except.ok.inj (Option.some.inj h)).symm

/-- Claim C4 (counterexample): on the cyclic schedule the selector `"A"`
is present and has zero related trips, yet project-by-stop never yields a
successful schedule: it diverges. -/
theorem c4_counterexample :
    StrMap.get? cycSchedule.stops.stops "A" = some cycStopA ∧
    StrMap.vals cycSchedule.trips.trips = [] ∧
    stopProjectionDiverges cycSchedule "A" :=
  ⟨by decide, by decide, cyc_stop_diverges⟩

/-- Claim C4 (amended): project-by-route errors (with `NoSuchRoute`) iff
the id is absent from the routes, and project-by-stop errors (with
`NoSuchStop`) iff the id is absent from the stops; a present route with
zero trips projects to a successful schedule with empty trips, stops and
stop-times; and a present stop whose descendant traversal terminates and
whose subtree is touched by no stop-time projects to a schedule with
empty trips, routes and stop-times.  (The amendment adds the termination
proviso for project-by-stop, forced by the divergence on a parent cycle.) -/
theorem c4_error_iff_absent_selector :
    (∀ (node : GtfsNode) (x : String),
      StrMap.get? node.gtfs.routes.routes x = none →
        RoutesCommandInterpreter.route node x =
          Except.error (RoutesCommandError.noSuchRoute x)) ∧
    (∀ (node : GtfsNode) (x : String) (e : RoutesCommandError),
      RoutesCommandInterpreter.route node x = Except.error e →
        StrMap.get? node.gtfs.routes.routes x = none ∧
          e = RoutesCommandError.noSuchRoute x) ∧
    (∀ (schedule : GtfsSchedule) (x : String) (fuel : Nat),
      StrMap.get? schedule.stops.stops x = none →
        StopsCommandInterpreter.stop fuel schedule x =
          some (Except.error (StopCommandError.noSuchStop x))) ∧
    (∀ (schedule : GtfsSchedule) (x : String) (fuel : Nat) (e : StopCommandError),
      StopsCommandInterpreter.stop fuel schedule x = some (Except.error e) →
        StrMap.get? schedule.stops.stops x = none ∧
          e = StopCommandError.noSuchStop x) ∧
    (∀ (node : GtfsNode) (x : String) (route : Route),
      StrMap.get? node.gtfs.routes.routes x = some route →
      (∀ t ∈ StrMap.vals node.gtfs.trips.trips, t.route_id ≠ x) →
      RoutesCommandInterpreter.route node x = Except.ok (GtfsNode.mk
        ⟨⟨[]⟩, ⟨[(x, route)]⟩, ⟨[]⟩, ⟨[]⟩⟩ (some node) x
        (some route.displayName))) ∧
    (∀ (schedule : GtfsSchedule) (x : String) (fuel : Nat) (node : GtfsNode),
      StopsCommandInterpreter.stop fuel schedule x = some (Except.ok node) →
      (∀ st ∈ schedule.stop_times.iter, ∀ sid, st.stop_id = some sid →
        StrMap.get? node.gtfs.stops.stops sid = none) →
      node.gtfs.trips.trips = [] ∧ node.gtfs.routes.routes = [] ∧
        node.gtfs.stop_times.stop_times = []) := by
  refine ⟨?_, ?_, ?_, ?_, ?_, ?_⟩
  · intro node x h
    unfold RoutesCommandInterpreter.route
    rw [h]
  · intro node x e
    unfold RoutesCommandInterpreter.route
    cases hx : StrMap.get? node.gtfs.routes.routes x with
    | none =>
        intro h
        exact ⟨rfl, (Except.error.inj h).symm⟩
    | some route =>
        intro h
        exact Except.noConfusion h
  · intro schedule x fuel h
    exact stop_absent_error fuel schedule x h
  · intro schedule x fuel e h
    cases hx : StrMap.get? schedule.stops.stops x with
    | none =>
        rw [stop_absent_error fuel schedule x hx] at h
        exact ⟨rfl, (Except.error.inj (Option.some.inj h)).symm⟩
    | some raw =>
        exact absurd h (stop_present_no_error fuel schedule x raw hx e)
  · intro node x route hroute hno
    unfold RoutesCommandInterpreter.route
    rw [hroute]
    have h1 := routeTrips_empty node.gtfs x hno
    have h2 := routeStopTimesByStop_empty node.gtfs x h1
    have h3 := routeStops_empty node.gtfs x h2
    show Except.ok (GtfsNode.mk
      ⟨⟨routeStops node.gtfs x⟩, ⟨[(x, route)]⟩, ⟨routeTrips node.gtfs x⟩,
        ⟨StrMap.ofList (routeStopTimesByStop node.gtfs x)⟩⟩
      (some node) x (some route.displayName)) = _
    rw [h1, h2, h3]
    rfl
  · intro schedule x fuel node hok huntouched
    obtain ⟨raw, root, m, hraw, hfst, hput, rfl⟩ := stop_ok_elim fuel schedule x
      node hok
    have hempty : stopStopTimes schedule ⟨m⟩ = [] := by
      refine stopStopTimes_empty schedule ⟨m⟩ ?_
      intro st hst sid hsid
      exact huntouched st hst sid hsid
    have hbr := stopTripsByRoute_empty schedule ⟨m⟩ hempty
    refine ⟨?_, ?_, ?_⟩
    · show stopTrips schedule ⟨m⟩ = []
      exact stopTrips_empty schedule ⟨m⟩ hbr
    · show stopRoutes schedule ⟨m⟩ = []
      exact stopRoutes_empty schedule ⟨m⟩ hbr
    · exact hempty

/-- Witness for C4: the absent route id `"Z"` errors on `sampleNode`; the
present route `"R2"` has zero trips and projects to the empty-collections
schedule; the absent stop id `"Z"` errors. -/
theorem c4_witness :
    RoutesCommandInterpreter.route sampleNode "Z" =
      Except.error (RoutesCommandError.noSuchRoute "Z") ∧
    StopsCommandInterpreter.stop 1 sampleSchedule "Z" =
      some (Except.error (StopCommandError.noSuchStop "Z")) ∧
    RoutesCommandInterpreter.route sampleNode "R2" = Except.ok (GtfsNode.mk
      ⟨⟨[]⟩, ⟨[("R2", routeR2)]⟩, ⟨[]⟩, ⟨[]⟩⟩ (some sampleNode) "R2"
      (some routeR2.displayName)) :=
  ⟨c4_error_iff_absent_selector.1 sampleNode "Z" (by decide),
   c4_error_iff_absent_selector.2.2.1 sampleSchedule "Z" 1 (by decide),
   c4_error_iff_absent_selector.2.2.2.2.1 sampleNode "R2" routeR2 (by decide)
     (by decide)⟩

/-- Claim C5 (counterexample): on a schedule whose stops form a
`parent_station` cycle, project-by-stop of a stop on the cycle does not
terminate: for every recursion depth the traversal is still running, so
the computation never returns a `Result`. -/
theorem c5_counterexample :
    StrMap.get? cycSchedule.stops.stops "A" = some cycStopA ∧
    stopProjectionDiverges cycSchedule "A" :=
  ⟨by decide, cyc_stop_diverges⟩

/-- Claim C5 (amended): project-by-route is total by construction (its
embedding needs no fuel), and project-by-stop terminates with a `Result`
for every selector id over any schedule whose `parent_station` relation
admits a strictly decreasing rank (i.e. is acyclic); dangling parent
references are harmless.  The original claim's inclusion of cyclic
schedules is refuted by `c5_counterexample`. -/
theorem c5_terminates_on_ranked_schedules (schedule : GtfsSchedule)
    (rank : String → Nat)
    (hWFs : KeyedBy schedule.stops.stops Stop.stop_id)
    (hrank : RankedParents schedule.stops.stops rank) (x : String) :
    ∃ fuel res, StopsCommandInterpreter.stop fuel schedule x = some res := by
  cases hx : StrMap.get? schedule.stops.stops x with
  | none =>
      exact ⟨0, Except.error (StopCommandError.noSuchStop x),
        stop_absent_error 0 schedule x hx⟩
  | some raw =>
      obtain ⟨m, hm⟩ := putDescendants_rank_ok schedule.stops.stops rank hWFs hrank
        (rank x + 1) x raw hx (Nat.lt_succ_self _) []
      have hfst : ((StrMap.get? (stopsAndChildren schedule.stops.stops) x).bind
          Prod.fst) = some raw := by
        rw [sac_bindFst_eq _ _ hWFs.1]
        exact hx
      refine ⟨rank x + 1, Except.ok (stopProjection schedule ⟨m⟩ raw x), ?_⟩
      rw [StopsCommandInterpreter.stop_eq, hx, cloneDescendants_eq, hfst]
      show (match (match putDescendants (rank x + 1)
          (stopsAndChildren schedule.stops.stops) raw [] with
        | none => none
        | some (Except.error e) =>
            some (Except.error (StopCommandError.errorGettingDescendants x e))
        | some (Except.ok descendants) =>
            some (Except.ok (Stops.mk descendants))) with
        | none => none
        | some (Except.error e) => some (Except.error e)
        | some (Except.ok stopsProj) =>
            some (Except.ok (stopProjection schedule stopsProj raw x))) =
        some (Except.ok (stopProjection schedule ⟨m⟩ raw x))
      rw [hm]

/-- Witness for C5 on `sampleSchedule` with the rank `sampleRank`. -/
theorem c5_witness :
    ∃ fuel res, StopsCommandInterpreter.stop fuel sampleSchedule "A" = some res :=
  c5_terminates_on_ranked_schedules sampleSchedule sampleRank (by decide)
    (by decide) "A"

/-- Claim C2 (counterexample): on the cyclic schedule the stop `"A"` is
present in the stop table, yet project-by-stop never returns at all, so
it does not return the claimed subtree schedule. -/
theorem c2_counterexample :
    StrMap.get? cycSchedule.stops.stops "A" = some cycStopA ∧
    StrMap.get? cycSchedule.stops.stops "B" = some cycStopB ∧
    stopProjectionDiverges cycSchedule "A" :=
  ⟨by decide, by decide, cyc_stop_diverges⟩

/-- Claim C2 (amended): whenever project-by-stop terminates successfully
on a present stop id `s` (over collections keyed by their own ids), the
result's stops are exactly `s` and its descendants under `parent_station`
(no ancestors), its trips are exactly the trips with a stop-time at some
stop of that subtree, and its routes are exactly the routes referenced by
those trips.  (The amendment adds the termination proviso, forced by the
divergence on a parent cycle shown in the counterexample.) -/
theorem c2_project_by_stop_exact (schedule : GtfsSchedule) (s : String) (raw : Stop)
    (fuel : Nat) (node : GtfsNode)
    (hWFs : KeyedBy schedule.stops.stops Stop.stop_id)
    (hWFt : KeyedBy schedule.trips.trips Trip.trip_id)
    (hWFr : KeyedBy schedule.routes.routes Route.route_id)
    (hraw : StrMap.get? schedule.stops.stops s = some raw)
    (hok : StopsCommandInterpreter.stop fuel schedule s = some (Except.ok node)) :
    (∀ k v, StrMap.get? node.gtfs.stops.stops k = some v ↔
      Desc schedule.stops.stops s k ∧
        StrMap.get? schedule.stops.stops k = some v) ∧
    (∀ tid t, StrMap.get? node.gtfs.trips.trips tid = some t ↔
      StrMap.get? schedule.trips.trips tid = some t ∧
        ∃ st ∈ schedule.stop_times.iter, st.trip_id = tid ∧
          ∃ sid, st.stop_id = some sid ∧ Desc schedule.stops.stops s sid) ∧
    (∀ rid r, StrMap.get? node.gtfs.routes.routes rid = some r ↔
      StrMap.get? schedule.routes.routes rid = some r ∧
        ∃ t, StrMap.get? node.gtfs.trips.trips t.trip_id = some t ∧
          t.route_id = rid) := by
  obtain ⟨raw', root, m, hraw', hfst, hput, rfl⟩ :=
    stop_ok_elim fuel schedule s node hok
  have hE : raw' = root := by
    rw [sac_bindFst_eq _ _ hWFs.1, hraw'] at hfst
    exact Option.some.inj hfst
  subst hE
  have hrootid : raw'.stop_id = s := hWFs.2 (s, raw') (StrMap.mem_of_get? hraw')
  have char := putDescendants_char schedule.stops.stops hWFs fuel raw' [] m
    (by rw [hrootid]; exact hraw') hput
  rw [hrootid] at char
  have hmget : ∀ k v, StrMap.get? m k = some v ↔
      Desc schedule.stops.stops s k ∧
        StrMap.get? schedule.stops.stops k = some v := by
    intro k v
    constructor
    · intro hv
      by_cases hd : Desc schedule.stops.stops s k
      · refine ⟨hd, ?_⟩
        rw [← (char k).1 hd]
        exact hv
      · rw [(char k).2 hd, StrMap.get?_nil] at hv
        cases hv
    · rintro ⟨hd, hv⟩
      rw [(char k).1 hd]
      exact hv
  have hproj : ∀ sid, (StrMap.get? (Stops.mk m).stops sid).isSome ↔
      Desc schedule.stops.stops s sid := by
    intro sid
    constructor
    · intro hs
      obtain ⟨v, hv⟩ := Option.isSome_iff_exists.mp hs
      exact ((hmget sid v).mp hv).1
    · intro hd
      show (StrMap.get? m sid).isSome
      rw [(char sid).1 hd]
      exact Desc.present (by rw [hraw']; rfl) hd
  refine ⟨hmget, ?_, ?_⟩
  · intro tid t
    show StrMap.get? (stopTrips schedule (Stops.mk m)) tid = some t ↔ _
    rw [stopTrips_get? schedule (Stops.mk m) hWFt tid t]
    rw [stopStopTimes_isSome]
    constructor
    · rintro ⟨hget, st, hst, htid, sid, hsid, hsome⟩
      exact ⟨hget, st, hst, htid, sid, hsid, (hproj sid).mp hsome⟩
    · rintro ⟨hget, st, hst, htid, sid, hsid, hd⟩
      exact ⟨hget, st, hst, htid, sid, hsid, (hproj sid).mpr hd⟩
  · intro rid r
    show StrMap.get? (stopRoutes schedule (Stops.mk m)) rid = some r ↔ _
    rw [stopRoutes_get? schedule (Stops.mk m) hWFr rid r]
    rw [stopTripsByRoute_isSome]
    constructor
    · rintro ⟨hget, t, ht, hrid, hsome⟩
      refine ⟨hget, t, ?_, hrid⟩
      show StrMap.get? (stopTrips schedule (Stops.mk m)) t.trip_id = some t
      rw [stopTrips_get? schedule (Stops.mk m) hWFt t.trip_id t]
      exact ⟨(KeyedBy.get?_eq_some_iff hWFt _ _).mpr ⟨ht, rfl⟩, hsome⟩
    · rintro ⟨hget, t, ht, hrid⟩
      have ht2 : StrMap.get? (stopTrips schedule (Stops.mk m)) t.trip_id = some t :=
        ht
      rw [stopTrips_get? schedule (Stops.mk m) hWFt t.trip_id t] at ht2
      obtain ⟨hvals, _⟩ := (KeyedBy.get?_eq_some_iff hWFt _ _).mp ht2.1
      exact ⟨hget, t, hvals, hrid, ht2.2⟩

/-- Witness for C2 at `sampleSchedule`, stop `"A"`: the projected stops
contain the child platform `"A1"` (a descendant of the selected station). -/
theorem c2_witness :
    StrMap.get? (stopProjection sampleSchedule
        ⟨[("A", stopA), ("A1", stopA1)]⟩ stopA "A").gtfs.stops.stops "A1" =
      some stopA1 :=
  ((c2_project_by_stop_exact sampleSchedule "A" stopA 2
      (stopProjection sampleSchedule ⟨[("A", stopA), ("A1", stopA1)]⟩ stopA "A")
      (by decide) (by decide) (by decide) (by decide) rfl).1 "A1" stopA1).mpr
    ⟨Desc.step (v := stopA1) Desc.refl (by decide) (by decide), by decide⟩

theorem stop_ok_intro (fuel : Nat) (schedule : GtfsSchedule) (s : String)
    (raw : Stop) (m2 : StrMap Stop)
    (hraw : StrMap.get? schedule.stops.stops s = some raw)
    (hfst : (StrMap.get? (stopsAndChildren schedule.stops.stops) s).bind
      Prod.fst = some raw)
    (hput : putDescendants fuel (stopsAndChildren schedule.stops.stops) raw [] =
      some (Except.ok m2)) :
    StopsCommandInterpreter.stop fuel schedule s =
      some (Except.ok (stopProjection schedule (Stops.mk m2) raw s)) := by
  rw [StopsCommandInterpreter.stop_eq, hraw]
  show (match cloneDescendants fuel schedule s with
    | none => none
    | some (Except.error e) => some (Except.error e)
    | some (Except.ok stopsProj) =>
        some (Except.ok (stopProjection schedule stopsProj raw s))) = _
  rw [cloneDescendants_eq, hfst]
  show (match (match putDescendants fuel (stopsAndChildren schedule.stops.stops)
        raw [] with
      | none => none
      | some (Except.error e) =>
          some (Except.error (StopCommandError.errorGettingDescendants s e))
      | some (Except.ok descendants) => some (Except.ok (Stops.mk descendants)))
      with
    | none => none
    | some (Except.error e) => some (Except.error e)
    | some (Except.ok stopsProj) =>
        some (Except.ok (stopProjection schedule stopsProj raw s))) =
    some (Except.ok (stopProjection schedule (Stops.mk m2) raw s))
  rw [hput]

/-- Claim C7: idempotence of the stop closure.  If project-by-stop
succeeds on `s` over a schedule whose stops are keyed by their ids, then
`s` is present in the result's stops, re-projecting `s` from the result
succeeds with the same fuel, and the re-projection's stops collection
equals the first result's stops collection pointwise. -/
theorem c7_stop_closure_idempotent (schedule : GtfsSchedule) (s : String)
    (fuel : Nat) (node : GtfsNode)
    (hWFs : KeyedBy schedule.stops.stops Stop.stop_id)
    (hok : StopsCommandInterpreter.stop fuel schedule s = some (Except.ok node)) :
    (StrMap.get? node.gtfs.stops.stops s).isSome ∧
    ∃ node2, StopsCommandInterpreter.stop fuel node.gtfs s =
        some (Except.ok node2) ∧
      ∀ k, StrMap.get? node2.gtfs.stops.stops k =
        StrMap.get? node.gtfs.stops.stops k := by
  obtain ⟨raw', root, m, hraw', hfst, hput, rfl⟩ :=
    stop_ok_elim fuel schedule s node hok
  have hE : raw' = root := by
    rw [sac_bindFst_eq _ _ hWFs.1, hraw'] at hfst
    exact Option.some.inj hfst
  subst hE
  have hrootid : raw'.stop_id = s := hWFs.2 (s, raw') (StrMap.mem_of_get? hraw')
  have char := putDescendants_char schedule.stops.stops hWFs fuel raw' [] m
    (by rw [hrootid]; exact hraw') hput
  rw [hrootid] at char
  have hmget : ∀ k v, StrMap.get? m k = some v ↔
      Desc schedule.stops.stops s k ∧
        StrMap.get? schedule.stops.stops k = some v := by
    intro k v
    constructor
    · intro hv
      by_cases hd : Desc schedule.stops.stops s k
      · refine ⟨hd, ?_⟩
        rw [← (char k).1 hd]
        exact hv
      · rw [(char k).2 hd, StrMap.get?_nil] at hv
        cases hv
    · rintro ⟨hd, hv⟩
      rw [(char k).1 hd]
      exact hv
  have hsub : ∀ k v, StrMap.get? m k = some v →
      StrMap.get? schedule.stops.stops k = some v :=
    fun k v h => ((hmget k v).mp h).2
  have hcover : ∀ k, Desc schedule.stops.stops s k →
      StrMap.get? m k = StrMap.get? schedule.stops.stops k :=
    fun k hd => (char k).1 hd
  have hnodup : StrMap.NodupKeys m :=
    putDescendants_nodup _ fuel raw' [] m (by decide) hput
  have hWFm : KeyedBy m Stop.stop_id := by
    refine ⟨hnodup, ?_⟩
    rintro ⟨a, b⟩ hp
    have hg : StrMap.get? m a = some b :=
      (StrMap.mem_iff_get? hnodup a b).mp hp
    exact hWFs.2 (a, b) (StrMap.mem_of_get? (hsub a b hg))
  have hms : StrMap.get? m s = some raw' := (hmget s raw').mpr ⟨Desc.refl, hraw'⟩
  obtain ⟨m2, hm2⟩ := putDescendants_success_transfer
    schedule.stops.stops m hWFs hWFm s hsub hcover fuel s raw'
    Desc.refl hraw' ⟨[], m, hput⟩ []
  constructor
  · show (StrMap.get? m s).isSome
    rw [hms]
    rfl
  refine ⟨stopProjection (stopProjection schedule (Stops.mk m) raw' s).gtfs
    (Stops.mk m2) raw' s, ?_, ?_⟩
  · refine stop_ok_intro fuel _ s raw' m2 hms ?_ hm2
    show (StrMap.get? (stopsAndChildren m) s).bind Prod.fst = some raw'
    rw [sac_bindFst_eq _ _ hWFm.1]
    exact hms
  · intro k
    show StrMap.get? m2 k = StrMap.get? m k
    have char2 := putDescendants_char m hWFm fuel raw' [] m2
      (by rw [hrootid]; exact hms) hm2
    rw [hrootid] at char2
    by_cases hd : Desc schedule.stops.stops s k
    · rw [(char2 k).1 (Desc.transfer_fwd hcover hd)]
    · have hd2 : ¬Desc m s k := fun h => hd (Desc.transfer_bwd hsub h)
      rw [(char2 k).2 hd2, StrMap.get?_nil]
      cases hv : StrMap.get? m k with
      | none => rfl
      | some v => exact absurd ((hmget k v).mp hv).1 hd

/-- Witness for C7 at `sampleSchedule`, stop `"A"`: the selected stop is
present in the projected stops collection, so re-projection applies. -/
theorem c7_witness :
    (StrMap.get? (stopProjection sampleSchedule
        ⟨[("A", stopA), ("A1", stopA1)]⟩ stopA "A").gtfs.stops.stops "A").isSome :=
  (c7_stop_closure_idempotent sampleSchedule "A" 2
    (stopProjection sampleSchedule ⟨[("A", stopA), ("A1", stopA1)]⟩ stopA "A")
    (by decide) rfl).1

/-- Claim C8 (counterexample): project-by-stop from an inconsistent root
schedule is not trip-closed — the orphan stop-time (whose trip is absent
from the source) survives into the result while its trip does not. -/
theorem c8_counterexample :
    ∃ node, StopsCommandInterpreter.stop 1 orphanSchedule "A" =
        some (Except.ok node) ∧
      orphanStopTime ∈ node.gtfs.stop_times.iter ∧
      StrMap.get? node.gtfs.trips.trips orphanStopTime.trip_id = none :=
  ⟨stopProjection orphanSchedule ⟨[("A", stopA)]⟩ stopA "A", rfl,
    by decide, by decide⟩

theorem route_ok_elim (node : GtfsNode) (rid : String) (child : GtfsNode)
    (h : RoutesCommandInterpreter.route node rid = Except.ok child) :
    ∃ raw, StrMap.get? node.gtfs.routes.routes rid = some raw ∧
      child = GtfsNode.mk
        ⟨⟨routeStops node.gtfs rid⟩, ⟨[(rid, raw)]⟩, ⟨routeTrips node.gtfs rid⟩,
          ⟨StrMap.ofList (routeStopTimesByStop node.gtfs rid)⟩⟩
        (some node) rid (some raw.displayName) := by
  revert h
  unfold RoutesCommandInterpreter.route
  cases hr : StrMap.get? node.gtfs.routes.routes rid with
  | none =>
      show Except.error _ = Except.ok child → _
      intro h
      cases h
  | some raw =>
      show Except.ok _ = Except.ok child → _
      intro h
      exact ⟨raw, rfl, (Except.ok.inj h).symm⟩

/-- Claim C8 (amended): project-by-route always yields a trip-closed
schedule, and project-by-stop yields a trip-closed schedule whenever the
source schedule is itself trip-closed.  (The amendment drops the
"including an inconsistent root schedule" clause for project-by-stop,
refuted by the counterexample: clone-by-stop keeps a stop-time whenever
its stop is in the subtree, even if its trip resolves nowhere.) -/
theorem c8_projection_trip_closed (node : GtfsNode) (rid : String)
    (child : GtfsNode) (schedule : GtfsSchedule) (s : String) (fuel : Nat)
    (node2 : GtfsNode) :
    (RoutesCommandInterpreter.route node rid = Except.ok child →
      ∀ st ∈ child.gtfs.stop_times.iter,
        (StrMap.get? child.gtfs.trips.trips st.trip_id).isSome) ∧
    (TripClosed schedule →
      StopsCommandInterpreter.stop fuel schedule s = some (Except.ok node2) →
      ∀ st ∈ node2.gtfs.stop_times.iter,
        (StrMap.get? node2.gtfs.trips.trips st.trip_id).isSome) := by
  constructor
  · intro hroute st hst
    obtain ⟨raw, hraw, rfl⟩ := route_ok_elim node rid child hroute
    have hst2 : st ∈ (StrMap.vals (StrMap.ofList
        (routeStopTimesByStop node.gtfs rid))).flatten := hst
    rw [route_stop_times_ofList_eq] at hst2
    exact (routeStopTimesByStop_iter_mem node.gtfs rid st hst2).2
  · intro hclosed hok st hst
    obtain ⟨raw', root, m, hraw', hfst, hput, rfl⟩ :=
      stop_ok_elim fuel schedule s node2 hok
    have hst2 : st ∈ (StrMap.vals (stopStopTimes schedule (Stops.mk m))).flatten :=
      hst
    obtain ⟨hsrc, hsome⟩ := stopStopTimes_flatten_mem schedule (Stops.mk m) st hst2
    obtain ⟨t, ht, htid⟩ := hclosed st hsrc
    show (StrMap.get? (stopTrips schedule (Stops.mk m)) st.trip_id).isSome
    rw [stopTrips_isSome]
    refine ⟨t, ht, htid, ?_⟩
    rw [htid]
    exact hsome

/-- Witness for C8 at the sample schedule: both projections resolve the
trip `"T1"` of the surviving stop-time. -/
theorem c8_witness :
    (StrMap.get? (GtfsNode.mk
        ⟨⟨routeStops sampleNode.gtfs "R1"⟩, ⟨[("R1", routeR1)]⟩,
          ⟨routeTrips sampleNode.gtfs "R1"⟩,
          ⟨StrMap.ofList (routeStopTimesByStop sampleNode.gtfs "R1")⟩⟩
        (some sampleNode) "R1"
        (some routeR1.displayName)).gtfs.trips.trips stT1A1.trip_id).isSome ∧
    (StrMap.get? (stopProjection sampleSchedule
        ⟨[("A", stopA), ("A1", stopA1)]⟩ stopA
        "A").gtfs.trips.trips stT1A1.trip_id).isSome :=
  ⟨(c8_projection_trip_closed sampleNode "R1" _ sampleSchedule "A" 2
      (stopProjection sampleSchedule ⟨[("A", stopA), ("A1", stopA1)]⟩ stopA
        "A")).1 rfl stT1A1 (by decide),
    (c8_projection_trip_closed sampleNode "R1" (GtfsNode.mk
        ⟨⟨routeStops sampleNode.gtfs "R1"⟩, ⟨[("R1", routeR1)]⟩,
          ⟨routeTrips sampleNode.gtfs "R1"⟩,
          ⟨StrMap.ofList (routeStopTimesByStop sampleNode.gtfs "R1")⟩⟩
        (some sampleNode) "R1" (some routeR1.displayName))
      sampleSchedule "A" 2
      (stopProjection sampleSchedule ⟨[("A", stopA), ("A1", stopA1)]⟩ stopA
        "A")).2 (by decide) rfl stT1A1 (by decide)⟩
